import Mathlib

/-! Tabulator (src/main.cpp): a shallow embedding.

The class template `Tabulator<Ts...>` is embedded as a record whose field `Ts`
is the template parameter pack.  Member functions become functions on that
record; the output stream becomes a record of the text written so far and of
the formatting fields the class touches (`width`, `adjustfield`, `floatfield`,
`precision`).

Conventions.

* `Option` results: `none` stands for a failed `assert` or for an access the C++
  program leaves undefined (an index outside a `std::vector`).
* Sizes and counts are natural numbers, taken to fit `unsigned int` and
  `size_t`; the one subtraction on `size_t` in `print` wraps around `2 ^ 64`
  when it goes below zero.
* `int` values are integers.  The integral overload of `computeSize` is embedded
  twice: `Tabulator.computeSizeInt` takes the product `data * (-1)` in `int`
  and is undefined where it overflows, which is the case for `INT_MIN` only;
  `Tabulator.computeSize`, the function of the table model, takes the product
  exactly.  The two agree on every `int` but `INT_MIN`
  (`Tabulator.computeSize_eq_computeSizeInt`).
* The text that the stream library produces for a `double` is not part of the
  repository: it is the parameter `fmtDouble` (notation, precision, value).
* The fill character of the stream is the default blank; the class never sets it.
-/

/-! ## Data model -/

/-- The enum `ColumnFormat`. -/
inductive ColumnFormat where
  | AUTO
  | SCIENTIFIC
  | FIXED
  | PERCENT
  deriving DecidableEq, Repr

/-- The column types of the parameter pack `Ts...` that the model covers. -/
inductive CType where
  | int
  | string
  | double
  deriving DecidableEq, Repr

/-- A `double` value, named by the decimal literal that denotes it:
`⟨1125, -3⟩` is `1.125`. -/
structure DoubleVal where
  mant : Int
  exp10 : Int
  deriving DecidableEq, Repr

/-- One entry of a `RowData` tuple. -/
inductive Cell where
  | int (v : Int)
  | text (s : String)
  | real (x : DoubleVal)
  deriving DecidableEq, Repr

/-- The static type of a tuple entry. -/
def Cell.type : Cell → CType
  | .int _ => .int
  | .text _ => .string
  | .real _ => .double

/-- The `std::ios_base::floatfield` bits as the class can set them. -/
inductive FloatField where
  | unset
  | fixed
  | scientific
  deriving DecidableEq, Repr

/-- The `std::ios_base::adjustfield` bits as the class can set them. -/
inductive AdjustField where
  | unset
  | left
  | right
  deriving DecidableEq, Repr

/-- The output stream: the characters written so far and the formatting state. -/
structure OStream where
  out : String
  width : Nat
  adjustfield : AdjustField
  floatfield : FloatField
  precision : Int
  deriving DecidableEq, Repr

/-- The text of a double under a notation and a precision (stream library). -/
abbrev DoubleFmt := FloatField → Int → DoubleVal → String

/-- The string `std::string(n, c)`. -/
def strFill (n : Nat) (c : Char) : String := String.mk (List.replicate n c)

/-- A freshly constructed stream (`std::ios_base` defaults). -/
def OStream.fresh : OStream :=
  { out := "", width := 0, adjustfield := .unset, floatfield := .unset, precision := 6 }

/-- Padding of a field to the stream width: fill on the right when the
adjustment is `left`, on the left otherwise. -/
def OStream.padded (stream : OStream) (text : String) : String :=
  match stream.adjustfield with
  | .left => text ++ strFill (stream.width - text.length) ' '
  | _ => strFill (stream.width - text.length) ' ' ++ text

/-- A formatted insertion of text, `stream << text`: the text is padded to the
width, and the width is reset to zero. -/
def OStream.write (stream : OStream) (text : String) : OStream :=
  { stream with out := stream.out ++ stream.padded text, width := 0 }

/-- The manipulator `std::setw(n)`. -/
def OStream.setw (stream : OStream) (n : Nat) : OStream := { stream with width := n }

/-- The manipulator `std::left`. -/
def OStream.left (stream : OStream) : OStream := { stream with adjustfield := .left }

/-- The manipulator `std::right`. -/
def OStream.right (stream : OStream) : OStream := { stream with adjustfield := .right }

/-- The manipulator `std::fixed`. -/
def OStream.fixed (stream : OStream) : OStream := { stream with floatfield := .fixed }

/-- The manipulator `std::scientific`. -/
def OStream.scientific (stream : OStream) : OStream :=
  { stream with floatfield := .scientific }

/-- The manipulator `std::setprecision(p)`. -/
def OStream.setprecision (stream : OStream) (p : Int) : OStream :=
  { stream with precision := p }

/-- The call `stream.unsetf(std::ios_base::floatfield)`. -/
def OStream.unsetfFloatfield (stream : OStream) : OStream :=
  { stream with floatfield := .unset }

/-- The characters of a value under the current formatting state, before padding. -/
def OStream.valText (fmtDouble : DoubleFmt) (stream : OStream) : Cell → String
  | .int v => toString v
  | .text s => s
  | .real x => fmtDouble stream.floatfield stream.precision x

/-- The insertion `stream << val` of a tuple entry. -/
def OStream.insert (fmtDouble : DoubleFmt) (stream : OStream) (val : Cell) : OStream :=
  stream.write (stream.valText fmtDouble val)

/-- The members of `Tabulator<Ts...>`. -/
structure Tabulator where
  Ts : List CType
  _headers : List String
  _num_columns : Nat
  _static_column_size : Nat
  _cell_padding : Nat
  _data : List (List Cell)
  _column_sizes : List Nat
  _column_format : List ColumnFormat
  _precision : List Int
  deriving DecidableEq, Repr

/-! ## Helpers for vectors and loops -/

/-- The assignment `v[i] = x` on a `std::vector`; undefined outside the vector. -/
def vecSet? {α : Type} (v : List α) (i : Nat) (x : α) : Option (List α) :=
  if i < v.length then some (v.set i x) else none

/-- The call `v.resize(n)` on a vector of sizes. -/
def vecResize (v : List Nat) (n : Nat) : List Nat :=
  v.take n ++ List.replicate (n - v.length) 0

/-- The loop `for (i = lo; i < lo + count; i++) body`, and likewise the template
recursion of `printRow` and `determineSizes` on the index `I`. -/
def loopFrom {σ : Type} (body : Nat → σ → Option σ) : Nat → Nat → σ → Option σ
  | 0, _, s => some s
  | count + 1, i, s => (body i s).bind (loopFrom body count (i + 1))

/-- The subtraction `a - b` on `size_t`: below zero it wraps around `2 ^ 64`. -/
def sizeSub (a b : Nat) : Nat := if b ≤ a then a - b else a + 2 ^ 64 - b

/-- The integer part of the decimal logarithm of `n`, by repeated division;
`fuel` bounds the number of divisions. -/
def ilog10 : Nat → Nat → Nat
  | 0, _ => 0
  | fuel + 1, n => if n < 10 then 0 else ilog10 fuel (n / 10) + 1

/-- The value `std::log10(x)` of a positive `int`, truncated as the conversion
to `size_t` truncates it. On the positive values of `int` the library result in
`double` truncates to the integer logarithm; no wider integral type is covered. -/
def log10Trunc (x : Int) : Nat := ilog10 x.toNat x.toNat

/-- The least value of `int`. -/
def INT_MIN : Int := -2147483648

/-- The greatest value of `int`. -/
def INT_MAX : Int := 2147483647

/-- The product `a * b` of two `int` values; undefined when it is not an `int`. -/
def intMul (a b : Int) : Option Int :=
  if INT_MIN ≤ a * b ∧ a * b ≤ INT_MAX then some (a * b) else none

namespace Tabulator

/-! ## Member functions -/

/-- The value `std::tuple_size<RowData>::value`. -/
def tupleSize (t : Tabulator) : Nat := t.Ts.length

/-- The constructor: the assertion compares the headers with the tuple size. -/
def new (Ts : List CType) (headers : List String) (static_column_size cell_padding : Nat) :
    Option Tabulator :=
  if headers.length = Ts.length then
    some { Ts := Ts, _headers := headers, _num_columns := Ts.length,
           _static_column_size := static_column_size, _cell_padding := cell_padding,
           _data := [], _column_sizes := [], _column_format := [], _precision := [] }
  else none

/-- The member `addRow(Ts... entries)`: the entries have the types `Ts`. -/
def addRow (t : Tabulator) (entries : List Cell) : Option Tabulator :=
  if entries.map Cell.type = t.Ts then some { t with _data := t._data ++ [entries] } else none

/-- The member `setColumnFormat`. -/
def setColumnFormat (t : Tabulator) (column_format : List ColumnFormat) : Option Tabulator :=
  if column_format.length = t.tupleSize then some { t with _column_format := column_format }
  else none

/-- The member `setColumnPrecision`. -/
def setColumnPrecision (t : Tabulator) (precision : List Int) : Option Tabulator :=
  if precision.length = t.tupleSize then some { t with _precision := precision } else none

/-- The overloads of `justify<T>`: `std::right` for arithmetic types, else `std::left`. -/
def justify (stream : OStream) : Cell → OStream
  | .int _ => stream.right
  | .real _ => stream.right
  | .text _ => stream.left

/-- The integral overload of `computeSize` at `T = int`, with the product
`data * (-1)` taken in `int`. -/
def computeSizeInt (data : Int) : Option Nat :=
  if data = 0 then some 1
  else if data < 0 then (intMul data (-1)).map fun x => log10Trunc x + 1
  else some (log10Trunc data + 1)

/-- The three overloads of `computeSize`: a type with `size()`, an integral
type, and the fallback. The product `data * (-1)` is exact here; it is the
product in `int` for every `int` but `INT_MIN` (see `computeSizeInt`). -/
def computeSize (t : Tabulator) : Cell → Nat
  | .text data => data.length
  | .int data =>
      if data = 0 then 1
      else if data < 0 then log10Trunc (data * (-1)) + 1 else log10Trunc data + 1
  | .real _ => t._static_column_size

/-- One step `I` of the recursion `determineSizes`. -/
def determineSizesStep (t : Tabulator) (row : List Cell) (I : Nat) (sizes : List Nat) :
    Option (List Nat) := do
  let val ← row[I]?
  let sizes ← vecSet? sizes I (t.computeSize val)
  if !t._column_format.isEmpty then
    let f ← t._column_format[I]?
    if f = ColumnFormat.PERCENT then vecSet? sizes I 6 else pure sizes
  else pure sizes

/-- The member `determineSizes(t, sizes)`: steps `0 .. tuple_size - 1`. -/
def determineSizes (t : Tabulator) (row : List Cell) (sizes : List Nat) : Option (List Nat) :=
  loopFrom (determineSizesStep t row) t.tupleSize 0 sizes

/-- The first loop of `computeColumnSizes`: widths start at the header sizes. -/
def headerSizesLoop (t : Tabulator) (cs : List Nat) : Option (List Nat) :=
  loopFrom (fun i cs => do
    let h ← t._headers[i]?
    vecSet? cs i h.length) t._num_columns 0 cs

/-- The inner loop of `computeColumnSizes`: the pointwise maximum. -/
def maxLoop (t : Tabulator) (column_sizes : List Nat) (cs : List Nat) : Option (List Nat) :=
  loopFrom (fun i cs => do
    let a ← cs[i]?
    let b ← column_sizes[i]?
    vecSet? cs i (max a b)) t._num_columns 0 cs

/-- The row loop of `computeColumnSizes`; the state is `_column_sizes` and the
local vector `column_sizes`. -/
def rowSizesLoop (t : Tabulator) :
    List (List Cell) → List Nat × List Nat → Option (List Nat × List Nat)
  | [], st => some st
  | row :: rest, (cs, column_sizes) => do
      let column_sizes ← t.determineSizes row column_sizes
      let cs ← t.maxLoop column_sizes cs
      rowSizesLoop t rest (cs, column_sizes)

/-- The member `computeColumnSizes`. -/
def computeColumnSizes (t : Tabulator) : Option Tabulator := do
  let cs := vecResize t._column_sizes t._num_columns
  let column_sizes := List.replicate t._num_columns 0
  let cs ← t.headerSizesLoop cs
  let (cs, _) ← t.rowSizesLoop t._data (cs, column_sizes)
  pure { t with _column_sizes := cs }

/-- The first block of `printRow`: the precision override of column `I`. -/
def precisionBlock (t : Tabulator) (I : Nat) (stream : OStream) : Option OStream :=
  if !t._precision.isEmpty then
    if t._precision.length = t.tupleSize then do
      let p ← t._precision[I]?
      pure (stream.setprecision p)
    else none
  else pure stream

/-- The second block of `printRow`: the format mode of column `I`. -/
def formatBlock (t : Tabulator) (I : Nat) (stream : OStream) : Option OStream :=
  if !t._column_format.isEmpty then
    if t._column_format.length = t.tupleSize then do
      let f ← t._column_format[I]?
      let stream := if f = ColumnFormat.SCIENTIFIC then stream.scientific else stream
      let stream := if f = ColumnFormat.FIXED then stream.fixed else stream
      let stream := if f = ColumnFormat.PERCENT then stream.fixed.setprecision 2 else stream
      pure stream
    else none
  else pure stream

/-- The output statement of `printRow` and the reset of the float notation
that follows it. -/
def writeCell (fmtDouble : DoubleFmt) (t : Tabulator) (val : Cell) (w : Nat)
    (stream : OStream) : OStream :=
  let stream := stream.write (strFill t._cell_padding ' ')
  let stream := stream.setw w
  let stream := justify stream val
  let stream := stream.insert fmtDouble val
  let stream := stream.write (strFill t._cell_padding ' ')
  let stream := stream.write "|"
  if !t._column_format.isEmpty then stream.unsetfFloatfield else stream

/-- One step `I` of the recursion `printRow`. -/
def printRowStep (fmtDouble : DoubleFmt) (t : Tabulator) (row : List Cell) (I : Nat)
    (stream : OStream) : Option OStream := do
  let val ← row[I]?
  let stream ← t.precisionBlock I stream
  let stream ← t.formatBlock I stream
  let w ← t._column_sizes[I]?
  pure (t.writeCell fmtDouble val w stream)

/-- The member `printRow(t, stream)`: steps `0 .. tuple_size - 1`. -/
def printRow (fmtDouble : DoubleFmt) (t : Tabulator) (row : List Cell) (stream : OStream) :
    Option OStream :=
  loopFrom (printRowStep fmtDouble t row) t.tupleSize 0 stream

/-- The accumulation of `total_width` in `print`. -/
def totalWidth (t : Tabulator) : Nat :=
  t._column_sizes.foldl (fun total_width col_size => total_width + (col_size + 2 * t._cell_padding))
    (t._num_columns + 1)

/-- One round `i` of the header loop of `print`. -/
def printHeaderStep (t : Tabulator) (i : Nat) (stream : OStream) : Option OStream := do
  let w ← t._column_sizes[i]?
  let h ← t._headers[i]?
  let half := w / 2
  let half := sizeSub half (h.length / 2)
  let stream := stream.write (strFill t._cell_padding ' ')
  let stream := stream.setw w
  let stream := stream.left
  let stream := stream.write (strFill half ' ' ++ h)
  let stream := stream.write (strFill t._cell_padding ' ')
  pure (stream.write "|")

/-- The row loop of `print`. -/
def printRows (fmtDouble : DoubleFmt) (t : Tabulator) : List (List Cell) → OStream → Option OStream
  | [], stream => some stream
  | row :: rest, stream => do
      let stream := stream.write "|"
      let stream ← t.printRow fmtDouble row stream
      let stream := stream.write "\n"
      printRows fmtDouble t rest stream

/-- The member `print(stream)`; the result is the table, whose `_column_sizes`
have been recomputed, and the stream. -/
def print (fmtDouble : DoubleFmt) (t : Tabulator) (stream : OStream) :
    Option (Tabulator × OStream) := do
  let t ← t.computeColumnSizes
  let total_width := t.totalWidth
  let stream := (stream.write (strFill total_width '-')).write "\n"
  let stream := stream.write "|"
  let stream ← loopFrom t.printHeaderStep t._num_columns 0 stream
  let stream := stream.write "\n"
  let stream := (stream.write (strFill total_width '-')).write "\n"
  let stream ← t.printRows fmtDouble t._data stream
  let stream := (stream.write (strFill total_width '-')).write "\n"
  pure (t, stream)

end Tabulator

/-! ## The class invariant -/

namespace Tabulator

/-- The invariant that the constructor, `addRow` and the two setters establish:
headers, rows and the two override lists agree with the tuple size. -/
def Inv (t : Tabulator) : Prop :=
  t._num_columns = t.Ts.length ∧ t._headers.length = t.Ts.length ∧
  (∀ row ∈ t._data, row.map Cell.type = t.Ts) ∧
  (t._column_format = [] ∨ t._column_format.length = t.Ts.length) ∧
  (t._precision = [] ∨ t._precision.length = t.Ts.length)

instance (t : Tabulator) : Decidable (Inv t) := by
  unfold Inv; infer_instance

/-- Column `i` is in PERCENT mode. -/
def isPercent (t : Tabulator) (i : Nat) : Prop := t._column_format[i]? = some ColumnFormat.PERCENT

instance (t : Tabulator) (i : Nat) : Decidable (isPercent t i) := by
  unfold isPercent; infer_instance

/-- The size that `determineSizes` leaves for entry `i` of a row. -/
def cellWidth (t : Tabulator) (i : Nat) (val : Cell) : Nat :=
  if t.isPercent i then 6 else t.computeSize val

/-- The display width of an entry in the words of the specification: the
character length of a text, the number of decimal digits of `|v|` for an
integer `v`, and the static column width for any other type. -/
def displayWidth (t : Tabulator) : Cell → Nat
  | .text s => s.length
  | .int v => (toString v.natAbs).length
  | .real _ => t._static_column_size

/-- The entries stored in column `i`, in row order. -/
def column (t : Tabulator) (i : Nat) : List Cell := t._data.filterMap (fun row => row[i]?)

/-- The width that the code computes for column `i`: the header size, raised by
the size of every stored entry of the column. -/
def specWidth (t : Tabulator) (i : Nat) : Nat :=
  ((t.column i).map (t.cellWidth i)).foldl max ((t._headers.getD i "").length)

/-- The formatting state in which entry `I` of a row is written: the effect of
the two configuration blocks of `printRow` when their assertions hold. -/
def cellFormat (t : Tabulator) (I : Nat) (stream : OStream) : OStream :=
  let stream :=
    match t._precision[I]? with
    | some p => stream.setprecision p
    | none => stream
  match t._column_format[I]? with
  | some ColumnFormat.SCIENTIFIC => stream.scientific
  | some ColumnFormat.FIXED => stream.fixed
  | some ColumnFormat.PERCENT => stream.fixed.setprecision 2
  | _ => stream

/-- The characters between the two paddings of a data cell: the value, padded
to the column width `w` on the side that `justify` selects. -/
def cellField (fmtDouble : DoubleFmt) (t : Tabulator) (I : Nat) (val : Cell) (w : Nat)
    (stream : OStream) : String :=
  (justify ((t.cellFormat I stream).setw w) val).padded
    ((t.cellFormat I stream).valText fmtDouble val)

/-- The characters that `printRow` writes for entry `I` of a row. -/
def cellText (fmtDouble : DoubleFmt) (t : Tabulator) (I : Nat) (val : Cell) (w : Nat)
    (stream : OStream) : String :=
  strFill t._cell_padding ' ' ++ t.cellField fmtDouble I val w stream
    ++ strFill t._cell_padding ' ' ++ "|"

/-- The stream after entry `I` of a row has been written. -/
def cellDone (fmtDouble : DoubleFmt) (t : Tabulator) (I : Nat) (val : Cell) (w : Nat)
    (stream : OStream) : OStream :=
  t.writeCell fmtDouble val w (t.cellFormat I stream)

/-- The characters of the header cell of a column of width `w` with label `h`. -/
def headerCell (t : Tabulator) (w : Nat) (h : String) : String :=
  strFill t._cell_padding ' ' ++
    ((strFill (sizeSub (w / 2) (h.length / 2)) ' ' ++ h) ++
      strFill (w - (strFill (sizeSub (w / 2) (h.length / 2)) ' ' ++ h).length) ' ') ++
    strFill t._cell_padding ' ' ++ "|"

/-- The header loop body of `print` with the two vector reads resolved. -/
def headerStep (t : Tabulator) (i : Nat) (stream : OStream) : OStream :=
  { out := stream.out ++ t.headerCell (t._column_sizes.getD i 0) (t._headers.getD i ""),
    width := 0,
    adjustfield := AdjustField.left,
    floatfield := stream.floatfield,
    precision := stream.precision }

/-- The body of `printRow` with the vector reads resolved. -/
def rowStep (fmtDouble : DoubleFmt) (t : Tabulator) (row : List Cell) (I : Nat)
    (stream : OStream) : OStream :=
  t.cellDone fmtDouble I (row.getD I (Cell.int 0)) (t._column_sizes.getD I 0) stream

end Tabulator

/-- The loop `for (i = lo; i < lo + count; i++)` over a body that cannot fail. -/
def iterFrom {σ : Type} (f : Nat → σ → σ) : Nat → Nat → σ → σ
  | 0, _, s => s
  | count + 1, i, s => iterFrom f count (i + 1) (f i s)

/-- The stream with its text replaced by `o`. -/
def OStream.withOut (o : String) (stream : OStream) : OStream :=
  { stream with out := o }

namespace Tabulator

/-- The stream after `printRow` on a row of a table that satisfies the invariant. -/
def rowDone (fmtDouble : DoubleFmt) (t : Tabulator) (row : List Cell) (stream : OStream) :
    OStream :=
  iterFrom (t.rowStep fmtDouble row) t.tupleSize 0 stream

/-- The characters of the data line of a row, written from the formatting
state of `stream`: the opening bar and the cells. -/
def rowLine (fmtDouble : DoubleFmt) (t : Tabulator) (row : List Cell) (stream : OStream) :
    String :=
  (t.rowDone fmtDouble row ((stream.withOut "").write "|")).out

/-- The stream after the row loop of `print`. -/
def rowsDone (fmtDouble : DoubleFmt) (t : Tabulator) : List (List Cell) → OStream → OStream
  | [], stream => stream
  | row :: rest, stream =>
      rowsDone fmtDouble t rest ((t.rowDone fmtDouble row (stream.write "|")).write "\n")

/-- The data lines of the rows, in row order; each line is written from the
formatting state that the line before it has left. -/
def dataLines (fmtDouble : DoubleFmt) (t : Tabulator) : List (List Cell) → OStream → List String
  | [], _ => []
  | row :: rest, stream =>
      t.rowLine fmtDouble row stream ::
        dataLines fmtDouble t rest ((t.rowDone fmtDouble row (stream.write "|")).write "\n")

/-- The header cells of the columns `lo .. lo + count - 1`, one after the other. -/
def headerCells (t : Tabulator) : Nat → Nat → String
  | 0, _ => ""
  | count + 1, i =>
      t.headerCell (t._column_sizes.getD i 0) (t._headers.getD i "") ++ headerCells t count (i + 1)

/-- The header line of `print`: the opening bar and the header cells. -/
def headerLine (t : Tabulator) : String :=
  "|" ++ t.headerCells t._num_columns 0

/-- The rule line of `print`. -/
def ruleLine (t : Tabulator) : String := strFill t.totalWidth '-'

/-- The stream of `print` when the row loop begins: rule, header line, rule. -/
def beforeRows (t : Tabulator) (stream : OStream) : OStream :=
  let stream := (stream.write t.ruleLine).write "\n"
  let stream := stream.write "|"
  let stream := iterFrom t.headerStep t._num_columns 0 stream
  let stream := stream.write "\n"
  (stream.write t.ruleLine).write "\n"

/-- The stream that `print` returns, for a table whose widths are computed. -/
def printDone (fmtDouble : DoubleFmt) (t : Tabulator) (stream : OStream) : OStream :=
  ((t.rowsDone fmtDouble t._data (t.beforeRows stream)).write t.ruleLine).write "\n"

end Tabulator

/-- The texts of a list, one after the other. -/
def concatAll : List String → String
  | [] => ""
  | a :: rest => a ++ concatAll rest

/-- The text of a list of lines, each followed by a newline. -/
def joinLines : List String → String
  | [] => ""
  | l :: ls => l ++ "\n" ++ joinLines ls

/-- The stream with `o` put in front of the text written so far. -/
def OStream.prepend (o : String) (stream : OStream) : OStream :=
  { stream with out := o ++ stream.out }

/-! ## Sample tables -/

/-- The table of Scenario A: `Tabulator<int, std::string, int>` with two rows. -/
def tableA : Tabulator :=
  { Ts := [CType.int, CType.string, CType.int],
    _headers := ["ID", "Name", "Price"],
    _num_columns := 3,
    _static_column_size := 0,
    _cell_padding := 1,
    _data := [[Cell.int 1, Cell.text "Apple", Cell.int 10],
              [Cell.int 2, Cell.text "Pineapple", Cell.int 30]],
    _column_sizes := [],
    _column_format := [],
    _precision := [] }

/-- A `Tabulator<double>` whose only column is in PERCENT mode under a header
of ten characters, with one row. -/
def tablePercentWide : Tabulator :=
  { Ts := [CType.double],
    _headers := ["Percentage"],
    _num_columns := 1,
    _static_column_size := 0,
    _cell_padding := 1,
    _data := [[Cell.real ⟨35, -1⟩]],
    _column_sizes := [],
    _column_format := [ColumnFormat.PERCENT],
    _precision := [] }

/-- A `Tabulator<double>` whose only column is in PERCENT mode, with no row. -/
def tablePercentEmpty : Tabulator :=
  { Ts := [CType.double],
    _headers := ["Pct"],
    _num_columns := 1,
    _static_column_size := 0,
    _cell_padding := 1,
    _data := [],
    _column_sizes := [],
    _column_format := [ColumnFormat.PERCENT],
    _precision := [] }

/-- A `Tabulator<double, std::string>` with a PERCENT column under a short header. -/
def tablePercent : Tabulator :=
  { Ts := [CType.double, CType.string],
    _headers := ["Share", "Name"],
    _num_columns := 2,
    _static_column_size := 0,
    _cell_padding := 1,
    _data := [[Cell.real ⟨35, -1⟩, Cell.text "Pineapple"]],
    _column_sizes := [],
    _column_format := [ColumnFormat.PERCENT, ColumnFormat.AUTO],
    _precision := [] }

/-- A `Tabulator<int>` with a header of three characters over an entry of four. -/
def tableQty : Tabulator :=
  { Ts := [CType.int],
    _headers := ["Qty"],
    _num_columns := 1,
    _static_column_size := 0,
    _cell_padding := 1,
    _data := [[Cell.int 1000]],
    _column_sizes := [],
    _column_format := [],
    _precision := [] }

/-- The header cell as the specification words it: the label after
`(w - l) / 2` blanks, filled with blanks to `w` characters, between the paddings
and before the bar. -/
def headerCellClaimed (t : Tabulator) (w : Nat) (h : String) : String :=
  strFill t._cell_padding ' ' ++
    ((strFill ((w - h.length) / 2) ' ' ++ h) ++
      strFill (w - (strFill ((w - h.length) / 2) ' ' ++ h).length) ' ') ++
    strFill t._cell_padding ' ' ++ "|"

/-- A `Tabulator<int>` with a negative entry. -/
def tableNeg : Tabulator :=
  { Ts := [CType.int],
    _headers := ["N"],
    _num_columns := 1,
    _static_column_size := 0,
    _cell_padding := 1,
    _data := [[Cell.int (-5)]],
    _column_sizes := [],
    _column_format := [],
    _precision := [] }

/-- A `Tabulator<std::string>` whose column is in PERCENT mode. -/
def tableClip : Tabulator :=
  { Ts := [CType.string],
    _headers := ["Name"],
    _num_columns := 1,
    _static_column_size := 0,
    _cell_padding := 1,
    _data := [[Cell.text "Pineapple"]],
    _column_sizes := [],
    _column_format := [ColumnFormat.PERCENT],
    _precision := [] }

/-- The entry is text or an integer of any sign. -/
def Cell.textOrInt : Cell → Bool
  | .int _ => true
  | .text _ => true
  | .real _ => false

/-- The entry is text or an integer that is not negative. -/
def Cell.textOrNat : Cell → Bool
  | .int v => decide (0 ≤ v)
  | .text _ => true
  | .real _ => false

/-- A `Tabulator<double, double>` with static width 8 whose second column is in
PERCENT mode, without precision overrides; its row is `(1.125, 3.5)`. -/
def tableLeak : Tabulator :=
  { Ts := [CType.double, CType.double],
    _headers := ["Raw", "Share"],
    _num_columns := 2,
    _static_column_size := 8,
    _cell_padding := 1,
    _data := [[Cell.real ⟨1125, -3⟩, Cell.real ⟨35, -1⟩]],
    _column_sizes := [],
    _column_format := [ColumnFormat.AUTO, ColumnFormat.PERCENT],
    _precision := [] }

/-- The text of the stream library for the doubles of `tableLeak`: `1.125` in
the default notation is `1.125` at precision 6 and `1.1` at precision 2
(`%.6g`, `%.2g`), and `3.5` in fixed notation at precision 2 is `3.50`
(`%.2f`). No other argument occurs in the evaluation below. -/
def sampleFmt : DoubleFmt := fun ff precision x =>
  if ff = FloatField.unset ∧ precision = 6 ∧ x = ⟨1125, -3⟩ then "1.125"
  else if ff = FloatField.unset ∧ precision = 2 ∧ x = ⟨1125, -3⟩ then "1.1"
  else if ff = FloatField.fixed ∧ precision = 2 ∧ x = ⟨35, -1⟩ then "3.50"
  else "?"

/-- The table of Scenario A with the widths that `computeColumnSizes` gives it. -/
def tableASized : Tabulator := { tableA with _column_sizes := [2, 9, 5] }

/-- The table `tablePercent` with the widths that `computeColumnSizes` gives it. -/
def tablePercentSized : Tabulator := { tablePercent with _column_sizes := [6, 9] }

/-- The table as it is when `setColumnFormat` ends, by returning or by the
failed assertion: the assignment follows the assertion. -/
def Tabulator.setColumnFormatEnd (t : Tabulator) (column_format : List ColumnFormat) :
    Tabulator :=
  if column_format.length = t.tupleSize then { t with _column_format := column_format } else t

/-- A `Tabulator<int, int>` with the modes FIXED and AUTO and the precision
overrides 3 and 5; the widths are those that `computeColumnSizes` gives it. -/
def tableFixedPrec : Tabulator :=
  { Ts := [CType.int, CType.int],
    _headers := ["A", "B"],
    _num_columns := 2,
    _static_column_size := 0,
    _cell_padding := 1,
    _data := [[Cell.int 1, Cell.int 2]],
    _column_sizes := [1, 1],
    _column_format := [ColumnFormat.FIXED, ColumnFormat.AUTO],
    _precision := [3, 5] }

/-- The float notation that a format mode selects: scientific for SCIENTIFIC,
fixed for FIXED and PERCENT, none for AUTO and for a table without modes. -/
def modeNotation : Option ColumnFormat → FloatField
  | some ColumnFormat.SCIENTIFIC => FloatField.scientific
  | some ColumnFormat.FIXED => FloatField.fixed
  | some ColumnFormat.PERCENT => FloatField.fixed
  | _ => FloatField.unset

/-- The tables that a program can hold: the result of a construction whose
assertion holds, followed by calls of `addRow`, `setColumnFormat`,
`setColumnPrecision` and `print` that return. -/
inductive Tabulator.Reachable : Tabulator → Prop where
  | construct (Ts : List CType) (headers : List String) (static_column_size cell_padding : Nat)
      (t : Tabulator) :
      Tabulator.new Ts headers static_column_size cell_padding = some t → Reachable t
  | addRow (t t2 : Tabulator) (entries : List Cell) :
      Reachable t → t.addRow entries = some t2 → Reachable t2
  | setColumnFormat (t t2 : Tabulator) (column_format : List ColumnFormat) :
      Reachable t → t.setColumnFormat column_format = some t2 → Reachable t2
  | setColumnPrecision (t t2 : Tabulator) (precision : List Int) :
      Reachable t → t.setColumnPrecision precision = some t2 → Reachable t2
  | print (t t2 : Tabulator) (fmtDouble : DoubleFmt) (stream s2 : OStream) :
      Reachable t → t.print fmtDouble stream = some (t2, s2) → Reachable t2

/-! ## The product and order stores

`Product` and `Order` objects live on the free store and the stores keep
pointers to them. The free store is a pair of lists and a pointer is an index
into its list; a read or write through a pointer outside the list is undefined
and gives `none`. -/

/-- The data members of the class `Product`. -/
structure Product where
  m_ID : Int
  m_Price : Int
  m_StockAmount : Int
  m_Name : String
  m_Description : String
  deriving DecidableEq, Repr

/-- The data members of the class `Order`. -/
structure Order where
  m_IsCheckedOut : Bool
  m_ProductID : Int
  m_OrderID : Int
  m_Quantity : Int
  m_ShippingCost : Int
  deriving DecidableEq, Repr

/-- The free store: the `Product` objects and the `Order` objects. -/
structure Heap where
  products : List Product
  orders : List Order
  deriving DecidableEq, Repr

/-- The member `Product::setID`. -/
def Product.setID (p : Product) (ID : Int) : Product := { p with m_ID := ID }

/-- The member `Order::setOrderID`. -/
def Order.setOrderID (o : Order) (orderID : Int) : Order := { o with m_OrderID := orderID }

/-- The data members of the class `ProductManager`. -/
structure ProductManager where
  m_Products : List Nat
  m_LastProductID : Int
  deriving DecidableEq, Repr

/-- The data members of the class `Orders`. -/
structure Orders where
  m_Orders : List Nat
  m_LastOrderID : Int
  deriving DecidableEq, Repr

namespace ProductManager

/-- The constructor of `ProductManager`. -/
def new : ProductManager := { m_Products := [], m_LastProductID := 0 }

/-- The member `getLastProductID(increment)`: the value returned and the manager. -/
def getLastProductID (pm : ProductManager) (increment : Bool) : Int × ProductManager :=
  let v := pm.m_LastProductID + (if increment then 1 else 0)
  (v, { pm with m_LastProductID := v })

/-- The member `addProduct(product)`. -/
def addProduct (h : Heap) (pm : ProductManager) (product : Nat) :
    Option (Heap × ProductManager) := do
  let r := pm.getLastProductID true
  let p ← h.products[product]?
  let h := { h with products := h.products.set product (p.setID r.1) }
  pure (h, { r.2 with m_Products := r.2.m_Products ++ [product] })

/-- The calls `addProduct(p)` for the pointers `p` of a list, in order. -/
def addProducts : Heap → ProductManager → List Nat → Option (Heap × ProductManager)
  | h, pm, [] => some (h, pm)
  | h, pm, p :: rest => (addProduct h pm p).bind fun r => addProducts r.1 r.2 rest

/-- The ID of the product that a pointer refers to. -/
def idOf (h : Heap) (product : Nat) : Option Int := (h.products[product]?).map fun p => p.m_ID

end ProductManager

namespace Orders

/-- The constructor of `Orders`. -/
def new : Orders := { m_Orders := [], m_LastOrderID := 0 }

/-- The member `getLastOrderID(increment)`: the value returned and the store. -/
def getLastOrderID (os : Orders) (increment : Bool) : Int × Orders :=
  let v := os.m_LastOrderID + (if increment then 1 else 0)
  (v, { os with m_LastOrderID := v })

/-- The member `addOrder(order)`. -/
def addOrder (h : Heap) (os : Orders) (order : Nat) : Option (Heap × Orders) := do
  let r := os.getLastOrderID true
  let o ← h.orders[order]?
  let h := { h with orders := h.orders.set order (o.setOrderID r.1) }
  pure (h, { r.2 with m_Orders := r.2.m_Orders ++ [order] })

/-- The member `removeOrder(orderID)`: `erase` at `begin() + orderID`, defined
for the positions of the vector. -/
def removeOrder (os : Orders) (orderID : Int) : Option Orders :=
  if 0 ≤ orderID ∧ orderID < os.m_Orders.length then
    some { os with m_Orders := os.m_Orders.eraseIdx orderID.toNat }
  else none

/-- The member `getOrder(orderID)`: the pointer at position `orderID`. -/
def getOrder (os : Orders) (orderID : Int) : Option Nat :=
  if 0 ≤ orderID then os.m_Orders[orderID.toNat]? else none

/-- The member `size()`. -/
def size (os : Orders) : Int := os.m_Orders.length

/-- The calls `addOrder(o)` for the pointers `o` of a list, in order. -/
def addOrders : Heap → Orders → List Nat → Option (Heap × Orders)
  | h, os, [] => some (h, os)
  | h, os, o :: rest => (addOrder h os o).bind fun r => addOrders r.1 r.2 rest

/-- The ID of the order that a pointer refers to. -/
def idOf (h : Heap) (order : Nat) : Option Int := (h.orders[order]?).map fun o => o.m_OrderID

end Orders

/-- A free store with three default-constructed products and three
default-constructed orders. -/
def heap3 : Heap :=
  { products := List.replicate 3 { m_ID := 0, m_Price := 0, m_StockAmount := 0, m_Name := "",
                                    m_Description := "" },
    orders := List.replicate 3 { m_IsCheckedOut := false, m_ProductID := 0, m_OrderID := 0,
                                  m_Quantity := 0, m_ShippingCost := 0 } }

/-! ## The namespace `Text` -/

/-- The call `str.find(what)` of `std::string`: the lowest position at which
`what` occurs in `str`; `none` stands for `npos`. -/
def stdFind (what : List Char) : List Char → Option Nat
  | [] => if what.isEmpty then some 0 else none
  | c :: rest =>
      if what.isPrefixOf (c :: rest) then some 0 else (stdFind what rest).map (· + 1)

namespace Text

/-- The overload `StartsWithChar(std::string& str, std::string what)`: the
search is for `str` in `str`. -/
def StartsWithChar (str : String) (_what : String) : Bool :=
  if stdFind str.data str.data = some 0 then true else false

/-- The function `StartsWithString(str, prefix)`. -/
def StartsWithString (str : String) (pre : String) : Bool :=
  if str.length < pre.length then false
  else decide (str.data.take pre.length = pre.data)

end Text

/-! ## Runs of the order store, the shopping cart and `Random::Gen` -/

/-- A call on the order store: `addOrder(order)` or `removeOrder(orderID)`. -/
inductive OrderOp where
  | addOrder (order : Nat)
  | removeOrder (orderID : Int)
  deriving DecidableEq, Repr

/-- The number of `removeOrder` calls in a list of calls. -/
def OrderOp.removals : List OrderOp → Nat
  | [] => 0
  | OrderOp.addOrder _ :: rest => OrderOp.removals rest
  | OrderOp.removeOrder _ :: rest => OrderOp.removals rest + 1

/-- The calls of a list on the order store, in order; `none` when a call is
undefined (a pointer outside the free store, a position outside the vector). -/
def Orders.run : Heap → Orders → List OrderOp → Option (Heap × Orders)
  | h, os, [] => some (h, os)
  | h, os, OrderOp.addOrder order :: rest =>
      (Orders.addOrder h os order).bind fun r => Orders.run r.1 r.2 rest
  | h, os, OrderOp.removeOrder orderID :: rest =>
      (os.removeOrder orderID).bind fun os2 => Orders.run h os2 rest

/-- The constructor `Order()`. -/
def Order.new : Order :=
  { m_IsCheckedOut := false, m_ProductID := 0, m_OrderID := 0, m_Quantity := 0,
    m_ShippingCost := 0 }

/-- The member `Order::setProductID`. -/
def Order.setProductID (o : Order) (productID : Int) : Order := { o with m_ProductID := productID }

/-- The member `Order::setQuantity`. -/
def Order.setQuantity (o : Order) (quantity : Int) : Order := { o with m_Quantity := quantity }

/-- The member `Order::setCheckedOut`. -/
def Order.setCheckedOut (o : Order) (checkedOut : Bool) : Order :=
  { o with m_IsCheckedOut := checkedOut }

/-- The member `Order::setShippingCost`. -/
def Order.setShippingCost (o : Order) (shippingCost : Int) : Order :=
  { o with m_ShippingCost := shippingCost }

/-- A write `order->f(...)` through a pointer to an order. -/
def Heap.updateOrder (h : Heap) (order : Nat) (f : Order → Order) : Option Heap :=
  (h.orders[order]?).map fun o => { h with orders := h.orders.set order (f o) }

/-- The parts of the library header `random` that `Random::Gen` uses: the state
of the generator after `seed(s)`, and the value and the next state of the
generator for `std::uniform_int_distribution<int32_t>(min, max)`. -/
structure RandomLib where
  seed : Nat → Nat
  distrib : Int → Int → Nat → Int × Nat

/-- The static variables of the namespace `Random`. -/
structure RandomState where
  g_IsDeviceInitialized : Bool
  g_Generator : Nat
  deriving DecidableEq, Repr

/-- The function `Random::Gen(min, max)`; `entropy` is the value that the random
device and the clocks give for the seed. -/
def Random.Gen (lib : RandomLib) (entropy : Nat) (min max : Int) (rs : RandomState) :
    Int × RandomState :=
  let rs :=
    if !rs.g_IsDeviceInitialized then
      { g_IsDeviceInitialized := true, g_Generator := lib.seed entropy }
    else rs
  let r := lib.distrib min max rs.g_Generator
  (r.1, { rs with g_Generator := r.2 })

/-- The data member of the class `ShoppingCart`. -/
structure ShoppingCart where
  m_Cart : List Nat
  deriving DecidableEq, Repr

namespace ShoppingCart

/-- The member `addProductToCart(product, quantity)`: the free store, the cart
and the value returned. The new order is allocated at the end of the free
store. -/
def addProductToCart (h : Heap) (cart : ShoppingCart) (product : Nat) (quantity : Int) :
    Option (Heap × ShoppingCart × Bool) := do
  let p ← h.products[product]?
  if p.m_StockAmount < quantity then
    pure (h, cart, false)
  else
    let order := h.orders.length
    let h := { h with orders := h.orders ++ [Order.new] }
    let h ← h.updateOrder order fun o => o.setProductID p.m_ID
    let h ← h.updateOrder order fun o => o.setQuantity quantity
    pure (h, { cart with m_Cart := cart.m_Cart ++ [order] }, true)

/-- The member `clearCart()`. -/
def clearCart (cart : ShoppingCart) : ShoppingCart := { cart with m_Cart := [] }

/-- The loop of `checkout()` over the pointers of the cart. -/
def checkoutLoop (lib : RandomLib) (entropy : Nat) :
    Heap → RandomState → Orders → List Nat → Option (Heap × RandomState × Orders)
  | h, rs, os, [] => some (h, rs, os)
  | h, rs, os, order :: rest => do
      let h ← h.updateOrder order fun o => o.setCheckedOut true
      let r := Random.Gen lib entropy 10 100 rs
      let h ← h.updateOrder order fun o => o.setShippingCost r.1
      let a ← Orders.addOrder h os order
      checkoutLoop lib entropy a.1 r.2 a.2 rest

/-- The member `checkout()`, on the global order store. -/
def checkout (lib : RandomLib) (entropy : Nat) (h : Heap) (rs : RandomState) (os : Orders)
    (cart : ShoppingCart) : Option (Heap × RandomState × Orders × ShoppingCart) :=
  (checkoutLoop lib entropy h rs os cart.m_Cart).map fun r =>
    (r.1, r.2.1, r.2.2, cart.clearCart)

end ShoppingCart

/-- A library for the evaluations: the generator state counts the draws, and
the value of a draw lies between `min` and `max`. -/
def sampleRandom : RandomLib :=
  { seed := fun s => s,
    distrib := fun min max g => (min + ((g : Int) % (max - min + 1)), g + 1) }

/-- A free store with the product `Apple` (ID 1, stock 100), one order of the
order store, at pointer 0, and two orders of a cart, at the pointers 1 and 2. -/
def heapShop : Heap :=
  { products := [{ m_ID := 1, m_Price := 10, m_StockAmount := 100, m_Name := "Apple",
                   m_Description := "A fruit that is red and green" }],
    orders := [{ m_IsCheckedOut := true, m_ProductID := 1, m_OrderID := 1, m_Quantity := 4,
                 m_ShippingCost := 30 },
               { m_IsCheckedOut := false, m_ProductID := 1, m_OrderID := 0, m_Quantity := 2,
                 m_ShippingCost := 0 },
               { m_IsCheckedOut := false, m_ProductID := 1, m_OrderID := 0, m_Quantity := 7,
                 m_ShippingCost := 0 }] }

/-- The pointers of a cart and of the order store in a run of the program: they
refer to orders of the free store, the orders of the cart are pairwise distinct
objects, and none of them is in the order store. -/
def ShoppingCart.Inv (h : Heap) (os : Orders) (cart : ShoppingCart) : Prop :=
  (∀ p ∈ cart.m_Cart, p < h.orders.length) ∧ cart.m_Cart.Nodup ∧
  (∀ p ∈ cart.m_Cart, p ∉ os.m_Orders) ∧ (∀ p ∈ os.m_Orders, p < h.orders.length)

instance (h : Heap) (os : Orders) (cart : ShoppingCart) :
    Decidable (ShoppingCart.Inv h os cart) := by
  unfold ShoppingCart.Inv; infer_instance

/-- A text without a newline character. -/
def noNewline (s : String) : Prop := '\n' ∉ s.data

instance (s : String) : Decidable (noNewline s) := by
  unfold noNewline; infer_instance

/-- The number of newline characters of a text. -/
def newlines (s : String) : Nat := s.data.count '\n'

/-- The text of an entry of a row when it is written: the decimal numeral of an
`int`, the characters of a `std::string`, and for a `double` a text of the
stream library under some notation and precision. -/
def Cell.hasText (fmtDouble : DoubleFmt) : Cell → String → Prop
  | .int v, txt => txt = toString v
  | .text s, txt => txt = s
  | .real x, txt => ∃ ff p, txt = fmtDouble ff p x

/-- The characters of a data cell of width `w` that shows the text `txt` of the
entry `val`: the padding, the text in a field of `w` characters (filled on the
right for a `std::string`, on the left for a number), the padding and a bar. -/
def dataCell (pad w : Nat) (val : Cell) (txt : String) : String :=
  strFill pad ' ' ++
    (if val.type = CType.string then txt ++ strFill (w - txt.length) ' '
     else strFill (w - txt.length) ' ' ++ txt)
    ++ strFill pad ' ' ++ "|"

/-- The data cells of the entries of a row, in column order. -/
def dataCells (pad : Nat) : List Cell → List Nat → List String → String
  | val :: row, w :: ws, txt :: txts => dataCell pad w val txt ++ dataCells pad row ws txts
  | _, _, _ => ""

/-- The entry is written on one line: a `std::string` entry holds no newline. -/
def Cell.oneLine : Cell → Bool
  | .text s => decide (noNewline s)
  | _ => true

/-- A `Tabulator<std::string>` with one row, whose entry holds a newline. -/
def tableNewline : Tabulator :=
  { Ts := [CType.string],
    _headers := ["H"],
    _num_columns := 1,
    _static_column_size := 0,
    _cell_padding := 1,
    _data := [[Cell.text "a\nb"]],
    _column_sizes := [],
    _column_format := [],
    _precision := [] }

/-! # Theorems -/

/-! ## The invariant holds on every table built through the public members -/

namespace Tabulator

theorem Inv_new (Ts : List CType) (headers : List String) (static_column_size cell_padding : Nat)
    (t : Tabulator) (h : Tabulator.new Ts headers static_column_size cell_padding = some t) :
    t.Inv := by
  unfold Tabulator.new at h
  by_cases hlen : headers.length = Ts.length
  · rw [if_pos hlen] at h
    cases h
    exact ⟨rfl, hlen, by simp, Or.inl rfl, Or.inl rfl⟩
  · rw [if_neg hlen] at h
    cases h

theorem Inv_addRow (t t2 : Tabulator) (entries : List Cell) (hinv : t.Inv)
    (h : t.addRow entries = some t2) : t2.Inv := by
  unfold addRow at h
  by_cases hty : entries.map Cell.type = t.Ts
  · rw [if_pos hty] at h
    cases h
    obtain ⟨h1, h2, h3, h4, h5⟩ := hinv
    refine ⟨h1, h2, ?_, h4, h5⟩
    intro row hrow
    rcases List.mem_append.mp hrow with hr | hr
    · exact h3 row hr
    · rw [List.mem_singleton.mp hr]
      exact hty
  · rw [if_neg hty] at h
    cases h

theorem Inv_setColumnFormat (t t2 : Tabulator) (column_format : List ColumnFormat)
    (hinv : t.Inv) (h : t.setColumnFormat column_format = some t2) : t2.Inv := by
  unfold setColumnFormat at h
  by_cases hlen : column_format.length = t.tupleSize
  · rw [if_pos hlen] at h
    cases h
    obtain ⟨h1, h2, h3, _, h5⟩ := hinv
    exact ⟨h1, h2, h3, Or.inr hlen, h5⟩
  · rw [if_neg hlen] at h
    cases h

theorem Inv_setColumnPrecision (t t2 : Tabulator) (precision : List Int)
    (hinv : t.Inv) (h : t.setColumnPrecision precision = some t2) : t2.Inv := by
  unfold setColumnPrecision at h
  by_cases hlen : precision.length = t.tupleSize
  · rw [if_pos hlen] at h
    cases h
    obtain ⟨h1, h2, h3, h4, _⟩ := hinv
    exact ⟨h1, h2, h3, h4, Or.inr hlen⟩
  · rw [if_neg hlen] at h
    cases h

end Tabulator

/-! ## Loops over vectors -/

theorem loopFrom_pointwise {α : Type} (body : Nat → List α → Option (List α))
    (G : Nat → α → α) (n : Nat)
    (hbody : ∀ i (v : List α) a, i < n → v.length = n → v[i]? = some a →
      body i v = some (v.set i (G i a))) :
    ∀ count lo (v : List α), lo + count ≤ n → v.length = n →
      ∃ v2, loopFrom body count lo v = some v2 ∧ v2.length = n ∧
        ∀ j, v2[j]? = if lo ≤ j ∧ j < lo + count then (v[j]?).map (G j) else v[j]? := by
  intro count
  induction count with
  | zero =>
    intro lo v _ hv
    refine ⟨v, rfl, hv, fun j => ?_⟩
    have : ¬ (lo ≤ j ∧ j < lo + 0) := by omega
    rw [if_neg this]
  | succ k ih =>
    intro lo v hlo hv
    have hlt : lo < v.length := by omega
    have hget : v[lo]? = some (v[lo]) := List.getElem?_eq_getElem hlt
    have hb := hbody lo v _ (by omega) hv hget
    obtain ⟨v2, h2, hlen, hpt⟩ := ih (lo + 1) (v.set lo (G lo v[lo])) (by omega)
      (by simp [hv])
    refine ⟨v2, ?_, hlen, fun j => ?_⟩
    · simp [loopFrom, hb, h2]
    · rw [hpt j]
      by_cases hj : j = lo
      · subst hj
        have h1 : ¬ (j + 1 ≤ j ∧ j < j + 1 + k) := by omega
        have h3 : j ≤ j ∧ j < j + (k + 1) := by omega
        rw [if_neg h1, if_pos h3, hget]
        simp [hlt]
      · have hne : lo ≠ j := fun h => hj h.symm
        rw [List.getElem?_set_ne hne]
        by_cases hr : lo + 1 ≤ j ∧ j < lo + 1 + k
        · have h3 : lo ≤ j ∧ j < lo + (k + 1) := by omega
          rw [if_pos hr, if_pos h3]
        · have h3 : ¬ (lo ≤ j ∧ j < lo + (k + 1)) := by omega
          rw [if_neg hr, if_neg h3]

namespace Tabulator

/-! ## Width computation -/

theorem determineSizesStep_eq (t : Tabulator) (row : List Cell) (I : Nat) (sizes : List Nat)
    (val : Cell) (hval : row[I]? = some val) (hI : I < sizes.length)
    (hfmt : t._column_format = [] ∨ I < t._column_format.length) :
    t.determineSizesStep row I sizes = some (sizes.set I (t.cellWidth I val)) := by
  unfold determineSizesStep cellWidth isPercent
  rcases hfmt with hnil | hlen
  · simp [hval, vecSet?, hI, hnil]
  · have hne : t._column_format ≠ [] := by
      intro h; rw [h] at hlen; simp at hlen
    have hget : t._column_format[I]? = some (t._column_format[I]) :=
      List.getElem?_eq_getElem hlen
    by_cases hp : t._column_format[I] = ColumnFormat.PERCENT
    · simp [hval, vecSet?, hI, hne, hget, hp]
    · simp [hval, vecSet?, hI, hne, hget, hp]

theorem determineSizes_spec (t : Tabulator) (row : List Cell) (sizes : List Nat)
    (hrow : row.length = t.tupleSize) (hsizes : sizes.length = t.tupleSize)
    (hfmt : t._column_format = [] ∨ t._column_format.length = t.tupleSize) :
    ∃ v2, t.determineSizes row sizes = some v2 ∧ v2.length = t.tupleSize ∧
      ∀ j, j < t.tupleSize → v2[j]? = (row[j]?).map (t.cellWidth j) := by
  have hbody : ∀ i (v : List Nat) a, i < t.tupleSize → v.length = t.tupleSize →
      v[i]? = some a → t.determineSizesStep row i v
        = some (v.set i ((fun j _ => t.cellWidth j (row.getD j (Cell.int 0))) i a)) := by
    intro i v a hi hv _
    have hlt : i < row.length := by omega
    have hval : row[i]? = some (row[i]) := List.getElem?_eq_getElem hlt
    rw [determineSizesStep_eq t row i v _ hval (by omega) (by
      rcases hfmt with h | h
      · exact Or.inl h
      · exact Or.inr (by omega))]
    simp [List.getD, hval]
  obtain ⟨v2, h2, hlen, hpt⟩ := loopFrom_pointwise _ _ t.tupleSize hbody t.tupleSize 0 sizes
    (by omega) hsizes
  refine ⟨v2, h2, hlen, fun j hj => ?_⟩
  rw [hpt j, if_pos (by omega)]
  have hlt : j < row.length := by omega
  have hlt2 : j < sizes.length := by omega
  simp [List.getD, List.getElem?_eq_getElem hlt, List.getElem?_eq_getElem hlt2]

theorem headerSizesLoop_spec (t : Tabulator) (cs : List Nat)
    (hcs : cs.length = t._num_columns) (hh : t._headers.length = t._num_columns) :
    ∃ v2, t.headerSizesLoop cs = some v2 ∧ v2.length = t._num_columns ∧
      ∀ j, j < t._num_columns → v2[j]? = (t._headers[j]?).map String.length := by
  have hbody : ∀ i (v : List Nat) a, i < t._num_columns → v.length = t._num_columns →
      v[i]? = some a →
      (fun i cs => do
          let h ← t._headers[i]?
          vecSet? cs i h.length) i v
        = some (v.set i ((fun j _ => (t._headers.getD j "").length) i a)) := by
    intro i v a hi hv _
    have hlt : i < t._headers.length := by omega
    have hlt2 : i < v.length := by omega
    simp [List.getD, List.getElem?_eq_getElem hlt, vecSet?, hlt2]
  obtain ⟨v2, h2, hlen, hpt⟩ := loopFrom_pointwise _ _ t._num_columns hbody t._num_columns 0 cs
    (by omega) hcs
  refine ⟨v2, h2, hlen, fun j hj => ?_⟩
  rw [hpt j, if_pos (by omega)]
  have hlt : j < t._headers.length := by omega
  have hlt2 : j < cs.length := by omega
  simp [List.getD, List.getElem?_eq_getElem hlt, List.getElem?_eq_getElem hlt2]

theorem maxLoop_spec (t : Tabulator) (column_sizes cs : List Nat)
    (hcs : cs.length = t._num_columns) (hcol : column_sizes.length = t._num_columns) :
    ∃ v2, t.maxLoop column_sizes cs = some v2 ∧ v2.length = t._num_columns ∧
      ∀ j, j < t._num_columns →
        v2[j]? = (cs[j]?).map (fun a => max a (column_sizes.getD j 0)) := by
  have hbody : ∀ i (v : List Nat) a, i < t._num_columns → v.length = t._num_columns →
      v[i]? = some a →
      (fun i cs => do
          let a ← cs[i]?
          let b ← column_sizes[i]?
          vecSet? cs i (max a b)) i v
        = some (v.set i ((fun j a => max a (column_sizes.getD j 0)) i a)) := by
    intro i v a hi hv ha
    have hlt : i < column_sizes.length := by omega
    have hlt2 : i < v.length := by omega
    simp [List.getD, List.getElem?_eq_getElem hlt, vecSet?, hlt2, ha]
  obtain ⟨v2, h2, hlen, hpt⟩ := loopFrom_pointwise _ _ t._num_columns hbody t._num_columns 0 cs
    (by omega) hcs
  refine ⟨v2, h2, hlen, fun j hj => ?_⟩
  rw [hpt j, if_pos (by omega)]

end Tabulator

namespace Tabulator

theorem rowSizesLoop_spec (t : Tabulator) (hnum : t._num_columns = t.tupleSize)
    (hfmt : t._column_format = [] ∨ t._column_format.length = t.tupleSize) :
    ∀ (rows : List (List Cell)) (cs column_sizes : List Nat),
      (∀ row ∈ rows, row.length = t.tupleSize) →
      cs.length = t._num_columns → column_sizes.length = t._num_columns →
      ∃ cs2 col2, t.rowSizesLoop rows (cs, column_sizes) = some (cs2, col2) ∧
        cs2.length = t._num_columns ∧
        ∀ j, j < t._num_columns →
          cs2[j]? = (cs[j]?).map (fun a =>
            ((rows.filterMap (fun row => row[j]?)).map (t.cellWidth j)).foldl max a) := by
  intro rows
  induction rows with
  | nil =>
    intro cs column_sizes _ hcs _
    refine ⟨cs, column_sizes, rfl, hcs, fun j hj => ?_⟩
    have hlt : j < cs.length := by omega
    simp [List.getElem?_eq_getElem hlt]
  | cons row rest ih =>
    intro cs column_sizes hrows hcs hcol
    have hrow : row.length = t.tupleSize := hrows row (List.mem_cons_self _ _)
    obtain ⟨v2, hv2, hv2len, hv2pt⟩ :=
      determineSizes_spec t row column_sizes hrow (by omega) hfmt
    obtain ⟨cs1, hcs1, hcs1len, hcs1pt⟩ := maxLoop_spec t v2 cs hcs (by omega)
    obtain ⟨cs2, col2, h2, h2len, h2pt⟩ := ih cs1 v2
      (fun r hr => hrows r (List.mem_cons_of_mem _ hr)) hcs1len (by omega)
    refine ⟨cs2, col2, ?_, h2len, fun j hj => ?_⟩
    · simp [rowSizesLoop, hv2, hcs1, h2]
    · rw [h2pt j hj, hcs1pt j hj]
      have hlt : j < cs.length := by omega
      have hlt2 : j < row.length := by omega
      have hlt3 : j < v2.length := by omega
      have hv2j := hv2pt j (by omega)
      rw [List.getElem?_eq_getElem hlt3, List.getElem?_eq_getElem hlt2] at hv2j
      simp only [Option.map_some', Option.some.injEq] at hv2j
      simp [List.getElem?_eq_getElem hlt, List.getElem?_eq_getElem hlt2, List.getD,
        List.getElem?_eq_getElem hlt3, hv2j]

theorem Inv.row_length {t : Tabulator} (h : t.Inv) :
    ∀ row ∈ t._data, row.length = t.tupleSize := by
  intro row hrow
  have := congrArg List.length (h.2.2.1 row hrow)
  simpa [tupleSize] using this

theorem vecResize_length (v : List Nat) (n : Nat) : (vecResize v n).length = n := by
  simp [vecResize]; omega

/-- Closed form of `computeColumnSizes` on a table that satisfies the invariant. -/
theorem computeColumnSizes_spec (t : Tabulator) (h : t.Inv) :
    ∃ cs, t.computeColumnSizes = some { t with _column_sizes := cs } ∧
      cs.length = t._num_columns ∧ ∀ j, j < t._num_columns → cs[j]? = some (t.specWidth j) := by
  obtain ⟨hnum, hhead, _, hfmt, _⟩ := h
  obtain ⟨cs0, h0, h0len, h0pt⟩ := headerSizesLoop_spec t (vecResize t._column_sizes t._num_columns)
    (vecResize_length _ _) (by omega)
  obtain ⟨cs2, col2, h2, h2len, h2pt⟩ := rowSizesLoop_spec t hnum hfmt t._data cs0
    (List.replicate t._num_columns 0) (Inv.row_length ⟨hnum, hhead, ‹_›, hfmt, ‹_›⟩) h0len (by simp)
  refine ⟨cs2, ?_, h2len, fun j hj => ?_⟩
  · unfold computeColumnSizes
    simp only []
    rw [h0]
    simp [h2]
  · rw [h2pt j hj, h0pt j hj]
    have hlt : j < t._headers.length := by omega
    simp [List.getElem?_eq_getElem hlt, specWidth, column, List.getD]

end Tabulator

/-! ## Stream lemmas -/

@[simp] theorem strFill_zero (c : Char) : strFill 0 c = "" := rfl

@[simp] theorem strFill_length (n : Nat) (c : Char) : (strFill n c).length = n := by
  simp [strFill]

@[simp] theorem str_append_empty (a : String) : a ++ "" = a := by
  apply String.ext; simp

@[simp] theorem str_empty_append (a : String) : "" ++ a = a := by
  apply String.ext; simp

theorem OStream.padded_width_zero (stream : OStream) (text : String) (h : stream.width = 0) :
    stream.padded text = text := by
  unfold OStream.padded
  rw [h]
  cases stream.adjustfield <;> simp

theorem OStream.write_width_zero (stream : OStream) (text : String) (h : stream.width = 0) :
    stream.write text = { stream with out := stream.out ++ text } := by
  unfold OStream.write
  rw [OStream.padded_width_zero stream text h, h]

theorem OStream.write_out (stream : OStream) (text : String) (h : stream.width = 0) :
    (stream.write text).out = stream.out ++ text := by
  rw [OStream.write_width_zero stream text h]

theorem OStream.write_write_out (stream : OStream) (a b : String) :
    ((stream.write a).write b).out = (stream.write a).out ++ b :=
  OStream.write_out _ _ rfl

namespace Tabulator

theorem precisionBlock_eq (t : Tabulator) (I : Nat) (stream : OStream)
    (hprec : t._precision = [] ∨ t._precision.length = t.tupleSize) (hI : I < t.tupleSize) :
    t.precisionBlock I stream = some (match t._precision[I]? with
      | some p => stream.setprecision p
      | none => stream) := by
  unfold precisionBlock
  rcases hprec with h | h
  · simp [h]
  · have hlt : I < t._precision.length := by omega
    have hne : t._precision ≠ [] := by
      intro h0; rw [h0] at hlt; simp at hlt
    simp [h, hne, List.getElem?_eq_getElem hlt]

theorem formatBlock_eq (t : Tabulator) (I : Nat) (stream : OStream)
    (hfmt : t._column_format = [] ∨ t._column_format.length = t.tupleSize)
    (hI : I < t.tupleSize) :
    t.formatBlock I stream = some (match t._column_format[I]? with
      | some ColumnFormat.SCIENTIFIC => stream.scientific
      | some ColumnFormat.FIXED => stream.fixed
      | some ColumnFormat.PERCENT => stream.fixed.setprecision 2
      | _ => stream) := by
  unfold formatBlock
  rcases hfmt with h | h
  · simp [h]
  · have hlt : I < t._column_format.length := by omega
    have hne : t._column_format ≠ [] := by
      intro h0; rw [h0] at hlt; simp at hlt
    simp only [h, hne, List.getElem?_eq_getElem hlt, List.isEmpty_eq_true, Bool.not_eq_true,
      Bool.not_eq_true', Bool.not_eq_false', decide_eq_false_iff_not, not_false_eq_true,
      if_true, Option.bind_eq_bind, Option.some_bind, decide_False, Bool.not_false]
    cases t._column_format[I] <;> simp [hne]

theorem printRowStep_eq (fmtDouble : DoubleFmt) (t : Tabulator) (row : List Cell) (I : Nat)
    (stream : OStream) (val : Cell) (w : Nat)
    (hval : row[I]? = some val) (hw : t._column_sizes[I]? = some w)
    (hprec : t._precision = [] ∨ t._precision.length = t.tupleSize)
    (hfmt : t._column_format = [] ∨ t._column_format.length = t.tupleSize)
    (hI : I < t.tupleSize) :
    t.printRowStep fmtDouble row I stream = some (t.cellDone fmtDouble I val w stream) := by
  unfold printRowStep cellDone cellFormat
  simp only [hval, hw, precisionBlock_eq t I stream hprec hI, formatBlock_eq t I _ hfmt hI,
    Option.bind_eq_bind, Option.some_bind, Option.pure_def, bind, pure]

end Tabulator

/-! ## Loops over streams -/

theorem loopFrom_eq_iterFrom {σ : Type} (body : Nat → σ → Option σ) (f : Nat → σ → σ)
    (P : σ → Prop) (hi : Nat)
    (h : ∀ i s, i < hi → P s → body i s = some (f i s) ∧ P (f i s)) :
    ∀ count lo s, lo + count ≤ hi → P s →
      loopFrom body count lo s = some (iterFrom f count lo s) ∧ P (iterFrom f count lo s) := by
  intro count
  induction count with
  | zero => intro lo s _ hs; exact ⟨rfl, hs⟩
  | succ k ih =>
    intro lo s hlo hs
    obtain ⟨h1, h2⟩ := h lo s (by omega) hs
    obtain ⟨h3, h4⟩ := ih (lo + 1) (f lo s) (by omega) h2
    exact ⟨by simp [loopFrom, iterFrom, h1, h3], by simpa [iterFrom] using h4⟩

theorem OStream.prepend_write (o : String) (stream : OStream) (text : String) :
    (stream.prepend o).write text = (stream.write text).prepend o := by
  simp [OStream.prepend, OStream.write, OStream.padded, String.append_assoc]

theorem iterFrom_prepend (f : Nat → OStream → OStream) (o : String)
    (h : ∀ i s, f i (OStream.prepend o s) = OStream.prepend o (f i s)) :
    ∀ count lo s, iterFrom f count lo (OStream.prepend o s)
      = OStream.prepend o (iterFrom f count lo s) := by
  intro count
  induction count with
  | zero => intro lo s; rfl
  | succ k ih =>
    intro lo s
    simp [iterFrom, h, ih]

namespace Tabulator

theorem cellFormat_out (t : Tabulator) (I : Nat) (stream : OStream) :
    (t.cellFormat I stream).out = stream.out ∧ (t.cellFormat I stream).width = stream.width ∧
    (t.cellFormat I stream).adjustfield = stream.adjustfield := by
  unfold cellFormat
  rcases t._precision[I]? with _ | p <;> rcases t._column_format[I]? with _ | f
  · simp
  · cases f <;> simp [OStream.fixed, OStream.scientific, OStream.setprecision]
  · simp [OStream.setprecision]
  · cases f <;> simp [OStream.fixed, OStream.scientific, OStream.setprecision]

end Tabulator

namespace Tabulator

theorem writeCell_out (fmtDouble : DoubleFmt) (t : Tabulator) (val : Cell) (w : Nat)
    (stream : OStream) (hwidth : stream.width = 0) :
    (t.writeCell fmtDouble val w stream).out
      = stream.out ++ (strFill t._cell_padding ' ' ++
          (justify (stream.setw w) val).padded (stream.valText fmtDouble val)
          ++ strFill t._cell_padding ' ' ++ "|") := by
  obtain ⟨out, width, adj, ff, prec⟩ := stream
  simp only at hwidth
  subst hwidth
  unfold writeCell
  cases val <;> cases adj <;> by_cases he : t._column_format.isEmpty <;>
    simp [he, OStream.write, OStream.padded, OStream.setw, justify, OStream.insert,
      OStream.valText, OStream.left, OStream.right, String.append_assoc,
      OStream.unsetfFloatfield]

theorem writeCell_width (fmtDouble : DoubleFmt) (t : Tabulator) (val : Cell) (w : Nat)
    (stream : OStream) : (t.writeCell fmtDouble val w stream).width = 0 := by
  unfold writeCell
  by_cases he : t._column_format.isEmpty <;>
    simp [he, OStream.write, OStream.unsetfFloatfield]

theorem writeCell_prepend (fmtDouble : DoubleFmt) (t : Tabulator) (val : Cell) (w : Nat)
    (o : String) (stream : OStream) :
    t.writeCell fmtDouble val w (stream.prepend o)
      = (t.writeCell fmtDouble val w stream).prepend o := by
  unfold writeCell
  cases val <;> by_cases he : t._column_format.isEmpty <;>
    simp [he, OStream.write, OStream.padded, OStream.setw, justify, OStream.insert,
      OStream.valText, OStream.left, OStream.right, String.append_assoc,
      OStream.unsetfFloatfield, OStream.prepend]

theorem cellFormat_prepend (t : Tabulator) (I : Nat) (o : String) (stream : OStream) :
    t.cellFormat I (stream.prepend o) = (t.cellFormat I stream).prepend o := by
  unfold cellFormat
  rcases t._precision[I]? with _ | p <;> rcases t._column_format[I]? with _ | f
  · simp
  · cases f <;> simp [OStream.fixed, OStream.scientific, OStream.setprecision, OStream.prepend]
  · simp [OStream.setprecision, OStream.prepend]
  · cases f <;> simp [OStream.fixed, OStream.scientific, OStream.setprecision, OStream.prepend]

theorem cellDone_prepend (fmtDouble : DoubleFmt) (t : Tabulator) (I : Nat) (val : Cell)
    (w : Nat) (o : String) (stream : OStream) :
    t.cellDone fmtDouble I val w (stream.prepend o)
      = (t.cellDone fmtDouble I val w stream).prepend o := by
  unfold cellDone
  rw [cellFormat_prepend, writeCell_prepend]

theorem cellDone_width (fmtDouble : DoubleFmt) (t : Tabulator) (I : Nat) (val : Cell)
    (w : Nat) (stream : OStream) : (t.cellDone fmtDouble I val w stream).width = 0 :=
  writeCell_width _ _ _ _ _

theorem cellDone_out (fmtDouble : DoubleFmt) (t : Tabulator) (I : Nat) (val : Cell)
    (w : Nat) (stream : OStream) (hwidth : stream.width = 0) :
    (t.cellDone fmtDouble I val w stream).out
      = stream.out ++ t.cellText fmtDouble I val w stream := by
  unfold cellDone cellText cellField
  rw [writeCell_out _ _ _ _ _ (by rw [(cellFormat_out t I stream).2.1]; exact hwidth),
    (cellFormat_out t I stream).1]

theorem printHeaderStep_eq (t : Tabulator) (i : Nat) (stream : OStream)
    (hi : i < t._column_sizes.length) (hh : i < t._headers.length)
    (hwidth : stream.width = 0) :
    t.printHeaderStep i stream = some (t.headerStep i stream) := by
  obtain ⟨out, width, adj, ff, prec⟩ := stream
  simp only at hwidth
  subst hwidth
  unfold printHeaderStep headerStep headerCell
  cases adj <;>
  simp [List.getElem?_eq_getElem hi, List.getElem?_eq_getElem hh, List.getD, OStream.write,
    OStream.padded, OStream.setw, OStream.left, String.append_assoc]

end Tabulator

namespace Tabulator

theorem printRow_eq (fmtDouble : DoubleFmt) (t : Tabulator) (row : List Cell)
    (stream : OStream) (hrow : row.length = t.tupleSize)
    (hcs : t._column_sizes.length = t.tupleSize)
    (hprec : t._precision = [] ∨ t._precision.length = t.tupleSize)
    (hfmt : t._column_format = [] ∨ t._column_format.length = t.tupleSize) :
    t.printRow fmtDouble row stream = some (t.rowDone fmtDouble row stream) := by
  have h := loopFrom_eq_iterFrom (t.printRowStep fmtDouble row) (t.rowStep fmtDouble row)
    (fun _ => True) t.tupleSize (by
      intro i s hi _
      have h1 : i < row.length := by omega
      have h2 : i < t._column_sizes.length := by omega
      refine ⟨?_, trivial⟩
      rw [printRowStep_eq fmtDouble t row i s _ _ (List.getElem?_eq_getElem h1)
        (List.getElem?_eq_getElem h2) hprec hfmt hi]
      simp [rowStep, List.getD, List.getElem?_eq_getElem h1, List.getElem?_eq_getElem h2])
    t.tupleSize 0 stream (by omega) trivial
  exact h.1

theorem printRows_eq (fmtDouble : DoubleFmt) (t : Tabulator)
    (hcs : t._column_sizes.length = t.tupleSize)
    (hprec : t._precision = [] ∨ t._precision.length = t.tupleSize)
    (hfmt : t._column_format = [] ∨ t._column_format.length = t.tupleSize) :
    ∀ (rows : List (List Cell)) (stream : OStream),
      (∀ row ∈ rows, row.length = t.tupleSize) →
      t.printRows fmtDouble rows stream = some (t.rowsDone fmtDouble rows stream) := by
  intro rows
  induction rows with
  | nil => intro stream _; rfl
  | cons row rest ih =>
    intro stream hrows
    have hrow := hrows row (List.mem_cons_self _ _)
    simp [printRows, rowsDone, printRow_eq fmtDouble t row _ hrow hcs hprec hfmt,
      ih _ (fun r hr => hrows r (List.mem_cons_of_mem _ hr))]

theorem headerLoop_eq (t : Tabulator) (stream : OStream)
    (hcs : t._column_sizes.length = t._num_columns) (hh : t._headers.length = t._num_columns)
    (hwidth : stream.width = 0) :
    loopFrom t.printHeaderStep t._num_columns 0 stream
      = some (iterFrom t.headerStep t._num_columns 0 stream) := by
  have h := loopFrom_eq_iterFrom t.printHeaderStep t.headerStep (fun s => s.width = 0)
    t._num_columns (by
      intro i s hi hs
      exact ⟨printHeaderStep_eq t i s (by omega) (by omega) hs, rfl⟩)
    t._num_columns 0 stream (by omega) hwidth
  exact h.1

/-- The member `print` on a table that satisfies the invariant: it returns, and
its results are the table with recomputed widths and the stream `printDone`. -/
theorem print_eq (fmtDouble : DoubleFmt) (t : Tabulator) (stream : OStream) (h : t.Inv) :
    ∃ cs, t.computeColumnSizes = some { t with _column_sizes := cs } ∧
      cs.length = t._num_columns ∧ (∀ j, j < t._num_columns → cs[j]? = some (t.specWidth j)) ∧
      t.print fmtDouble stream
        = some ({ t with _column_sizes := cs },
                printDone fmtDouble { t with _column_sizes := cs } stream) := by
  obtain ⟨cs, hc, hlen, hpt⟩ := computeColumnSizes_spec t h
  refine ⟨cs, hc, hlen, hpt, ?_⟩
  obtain ⟨hnum, hhead, hrows, hfmt, hprec⟩ := h
  unfold print
  simp only [hc, Option.bind_eq_bind, Option.some_bind, bind]
  rw [headerLoop_eq { t with _column_sizes := cs } _ hlen (by simp; omega) (by simp [OStream.write])]
  simp only [Option.some_bind]
  rw [printRows_eq fmtDouble { t with _column_sizes := cs } (by simp [tupleSize]; omega)
    hprec hfmt t._data _ (Inv.row_length ⟨hnum, hhead, hrows, hfmt, hprec⟩)]
  rfl

end Tabulator

/-! ## Layout of the output -/

theorem joinLines_append (a b : List String) :
    joinLines (a ++ b) = joinLines a ++ joinLines b := by
  induction a with
  | nil => simp [joinLines]
  | cons l ls ih => simp [joinLines, ih, String.append_assoc]

namespace Tabulator

theorem headerLoop_out (t : Tabulator) :
    ∀ count lo (stream : OStream),
      (iterFrom t.headerStep count lo stream).out = stream.out ++ t.headerCells count lo ∧
      (stream.width = 0 → (iterFrom t.headerStep count lo stream).width = 0) ∧
      (iterFrom t.headerStep count lo stream).floatfield = stream.floatfield ∧
      (iterFrom t.headerStep count lo stream).precision = stream.precision := by
  intro count
  induction count with
  | zero => intro lo stream; simp [iterFrom, headerCells]
  | succ k ih =>
    intro lo stream
    obtain ⟨h1, h2, h3, h4⟩ := ih (lo + 1) (t.headerStep lo stream)
    refine ⟨?_, fun _ => ?_, ?_, ?_⟩
    · simp only [iterFrom, headerCells, h1]
      simp [headerStep, String.append_assoc]
    · simpa [iterFrom] using h2 rfl
    · simpa [iterFrom, headerStep] using h3
    · simpa [iterFrom, headerStep] using h4

theorem rowStep_prepend (fmtDouble : DoubleFmt) (t : Tabulator) (row : List Cell)
    (o : String) (I : Nat) (stream : OStream) :
    t.rowStep fmtDouble row I (stream.prepend o)
      = (t.rowStep fmtDouble row I stream).prepend o := by
  unfold rowStep
  exact cellDone_prepend _ _ _ _ _ _ _

theorem rowDone_prepend (fmtDouble : DoubleFmt) (t : Tabulator) (row : List Cell)
    (o : String) (stream : OStream) :
    t.rowDone fmtDouble row (stream.prepend o) = (t.rowDone fmtDouble row stream).prepend o :=
  iterFrom_prepend _ o (rowStep_prepend fmtDouble t row o) _ _ _

theorem rowLoop_width (fmtDouble : DoubleFmt) (t : Tabulator) (row : List Cell) :
    ∀ count lo (stream : OStream), stream.width = 0 →
      (iterFrom (t.rowStep fmtDouble row) count lo stream).width = 0 := by
  intro count
  induction count with
  | zero => intro lo stream h; simpa [iterFrom] using h
  | succ k ih =>
    intro lo stream _
    simp only [iterFrom]
    exact ih _ _ (cellDone_width _ _ _ _ _ _)

theorem rowDone_write_bar (fmtDouble : DoubleFmt) (t : Tabulator) (row : List Cell)
    (stream : OStream) (hwidth : stream.width = 0) :
    (t.rowDone fmtDouble row (stream.write "|")).out
      = stream.out ++ t.rowLine fmtDouble row stream := by
  have h : stream.write "|" = ((stream.withOut "").write "|").prepend stream.out := by
    simp [OStream.write, OStream.withOut, OStream.prepend, OStream.padded, hwidth]
  rw [h, rowDone_prepend]
  simp [OStream.prepend, rowLine]

theorem rowsDone_out (fmtDouble : DoubleFmt) (t : Tabulator) :
    ∀ (rows : List (List Cell)) (stream : OStream), stream.width = 0 →
      (t.rowsDone fmtDouble rows stream).out
          = stream.out ++ joinLines (t.dataLines fmtDouble rows stream) ∧
      (t.rowsDone fmtDouble rows stream).width = 0 := by
  intro rows
  induction rows with
  | nil => intro stream h; simp [rowsDone, dataLines, joinLines, h]
  | cons row rest ih =>
    intro stream hwidth
    have hw1 : (t.rowDone fmtDouble row (stream.write "|")).width = 0 :=
      rowLoop_width fmtDouble t row _ _ _ rfl
    obtain ⟨h1, h2⟩ := ih ((t.rowDone fmtDouble row (stream.write "|")).write "\n") rfl
    refine ⟨?_, by simpa [rowsDone] using h2⟩
    simp only [rowsDone, dataLines, joinLines, h1]
    rw [OStream.write_width_zero _ _ hw1]
    simp only [rowDone_write_bar fmtDouble t row stream hwidth, String.append_assoc]

theorem beforeRows_out (t : Tabulator) (stream : OStream) (hwidth : stream.width = 0) :
    (t.beforeRows stream).out
        = stream.out ++ joinLines [t.ruleLine, t.headerLine, t.ruleLine] ∧
      (t.beforeRows stream).width = 0 := by
  unfold beforeRows
  refine ⟨?_, rfl⟩
  obtain ⟨h1, h2, _, _⟩ := headerLoop_out t t._num_columns 0
    (((stream.write t.ruleLine).write "\n").write "|")
  simp only []
  rw [OStream.write_write_out, OStream.write_write_out, OStream.write_out _ _ (h2 rfl), h1,
    OStream.write_write_out, OStream.write_write_out, OStream.write_out _ _ hwidth]
  simp only [joinLines, headerLine, String.append_assoc, str_append_empty]

/-- The text that `print` writes is the rule, the header line, the rule, the
data lines and the rule, each followed by a newline. -/
theorem printDone_out (fmtDouble : DoubleFmt) (t : Tabulator) (stream : OStream)
    (hwidth : stream.width = 0) :
    (t.printDone fmtDouble stream).out
      = stream.out ++ joinLines ([t.ruleLine, t.headerLine, t.ruleLine]
          ++ t.dataLines fmtDouble t._data (t.beforeRows stream) ++ [t.ruleLine]) := by
  obtain ⟨hb1, hb2⟩ := beforeRows_out t stream hwidth
  obtain ⟨hr1, hr2⟩ := rowsDone_out fmtDouble t t._data (t.beforeRows stream) hb2
  unfold printDone
  rw [OStream.write_write_out, OStream.write_out _ _ hr2, hr1, hb1, joinLines_append,
    joinLines_append]
  simp only [joinLines, String.append_assoc, str_append_empty]

end Tabulator

/-! ## Digits -/

theorem ilog10_eq_log (fuel : Nat) : ∀ n, n ≤ fuel → ilog10 fuel n = Nat.log 10 n := by
  induction fuel with
  | zero =>
    intro n hn
    have : n = 0 := by omega
    subst this
    simp [ilog10]
  | succ k ih =>
    intro n hn
    unfold ilog10
    by_cases h : n < 10
    · simp [h, Nat.log_of_lt h]
    · have h10 : 10 ≤ n := by omega
      rw [if_neg h, ih (n / 10) (by omega)]
      rw [Nat.log_of_one_lt_of_le (by norm_num) h10]

theorem toDigitsCore_length (fuel : Nat) :
    ∀ n ds, n < fuel → (Nat.toDigitsCore 10 fuel n ds).length = ds.length + (Nat.log 10 n + 1) := by
  induction fuel with
  | zero => intro n ds hn; omega
  | succ k ih =>
    intro n ds hn
    unfold Nat.toDigitsCore
    by_cases h : n / 10 = 0
    · have hlt : n < 10 := by omega
      simp [h, Nat.log_of_lt hlt]
    · have h10 : 10 ≤ n := by omega
      simp only [h, if_false]
      rw [ih (n / 10) _ (by omega), Nat.log_of_one_lt_of_le (by norm_num) h10]
      simp
      omega

theorem toString_nat_length (n : Nat) : (toString n).length = Nat.log 10 n + 1 := by
  show (Nat.repr n).length = _
  unfold Nat.repr Nat.toDigits
  rw [List.asString, String.length_mk, toDigitsCore_length (n + 1) n [] (by omega)]
  simp

theorem Tabulator.computeSize_int_log (t : Tabulator) (u : Int) :
    t.computeSize (Cell.int u) = Nat.log 10 u.natAbs + 1 := by
  unfold Tabulator.computeSize log10Trunc
  by_cases h0 : u = 0
  · simp [h0]
  · by_cases hneg : u < 0
    · have : (u * (-1)).toNat = u.natAbs := by omega
      simp only []
      rw [if_neg h0, if_pos hneg, this, ilog10_eq_log _ _ (le_refl _)]
    · have : u.toNat = u.natAbs := by omega
      simp [h0, hneg, this, ilog10_eq_log]

theorem Tabulator.computeSize_eq_displayWidth (t : Tabulator) (val : Cell) :
    t.computeSize val = t.displayWidth val := by
  cases val with
  | text s => rfl
  | real x => rfl
  | int v =>
    rw [Tabulator.computeSize_int_log]
    show _ = (toString v.natAbs).length
    rw [toString_nat_length]

theorem foldl_max_init_le (l : List Nat) : ∀ a, a ≤ l.foldl max a := by
  induction l with
  | nil => intro a; exact le_refl a
  | cons x xs ih => intro a; exact le_trans (le_max_left a x) (ih (max a x))

theorem foldl_max_mem_le (l : List Nat) : ∀ a x, x ∈ l → x ≤ l.foldl max a := by
  induction l with
  | nil => intro a x hx; simp at hx
  | cons y ys ih =>
    intro a x hx
    rcases List.mem_cons.mp hx with h | h
    · subst h
      exact le_trans (le_max_right a x) (foldl_max_init_le ys (max a x))
    · exact ih (max a y) x h

theorem foldl_max_eq (l : List Nat) : ∀ a, l.foldl max a = max a (l.foldr max 0) := by
  induction l with
  | nil => intro a; simp
  | cons x xs ih => intro a; simp [ih, max_assoc]

/-! ## Claims on the width computation -/

namespace Tabulator

theorem foldl_max_const (l : List Cell) (c : Nat) :
    ∀ a, (l.map fun _ => c).foldl max a = if l = [] then a else max a c := by
  induction l with
  | nil => intro a; simp
  | cons x xs ih =>
    intro a
    simp only [List.map_cons, List.foldl_cons, ih]
    by_cases h : xs = [] <;> simp [h, max_assoc]

theorem column_length (t : Tabulator) (h : t.Inv) (i : Nat) (hi : i < t._num_columns) :
    (t.column i).length = t._data.length := by
  have hrows := Inv.row_length h
  have hnum : t._num_columns = t.tupleSize := h.1
  unfold column
  generalize t._data = rows at hrows
  induction rows with
  | nil => rfl
  | cons row rest ih =>
    have hrow := hrows row (List.mem_cons_self _ _)
    have hlt : i < row.length := by omega
    rw [List.filterMap_cons, List.getElem?_eq_getElem hlt]
    simp only [List.length_cons]
    rw [ih (fun r hr => hrows r (List.mem_cons_of_mem _ hr))]

theorem specWidth_percent (t : Tabulator) (h : t.Inv) (i : Nat) (hi : i < t._num_columns)
    (hp : t.isPercent i) :
    t.specWidth i
      = if t._data = [] then (t._headers.getD i "").length
        else max (t._headers.getD i "").length 6 := by
  have hmap : (t.column i).map (t.cellWidth i) = (t.column i).map fun _ => 6 := by
    apply List.map_congr_left
    intro val _
    simp [cellWidth, hp]
  have hlen := column_length t h i hi
  unfold specWidth
  rw [hmap, foldl_max_const]
  by_cases hd : t._data = []
  · have : t.column i = [] := by simp [column, hd]
    simp [hd, this]
  · have : t.column i ≠ [] := by
      intro h0
      rw [h0] at hlen
      exact hd (List.length_eq_zero.mp hlen.symm)
    simp [hd, this]

theorem specWidth_not_percent (t : Tabulator) (i : Nat) (hp : ¬ t.isPercent i) :
    t.specWidth i = ((t.column i).map t.computeSize).foldl max (t._headers.getD i "").length := by
  unfold specWidth
  congr 1
  apply List.map_congr_left
  intro val _
  simp [cellWidth, hp]

end Tabulator

namespace Tabulator

/-- C4, as stated, fails: a PERCENT column under a header of ten characters
gets width 10, and a PERCENT column of a table without rows gets the length of
its header, here 3. Both tables are built through the public members. -/
theorem percent_width_counterexample :
    ((Tabulator.new [CType.double] ["Percentage"] 0 1).bind fun t =>
      (t.setColumnFormat [ColumnFormat.PERCENT]).bind fun t =>
        t.addRow [Cell.real ⟨35, -1⟩]) = some tablePercentWide ∧
    tablePercentWide.isPercent 0 ∧
    tablePercentWide.computeColumnSizes.map (fun t => t._column_sizes) = some [10] ∧
    ((Tabulator.new [CType.double] ["Pct"] 0 1).bind fun t =>
      t.setColumnFormat [ColumnFormat.PERCENT]) = some tablePercentEmpty ∧
    tablePercentEmpty.isPercent 0 ∧
    tablePercentEmpty.computeColumnSizes.map (fun t => t._column_sizes) = some [3] := by
  decide

/-- C4, amended. On every table that satisfies the class invariant and for
every column `i` in PERCENT mode, the computed width is the header length when
no row is stored, and the maximum of the header length and 6 otherwise: the
entries of the column have no influence on it. -/
theorem percent_width (t : Tabulator) (h : t.Inv) (i : Nat) (hi : i < t._num_columns)
    (hp : t.isPercent i) :
    ∃ t2 hd, t.computeColumnSizes = some t2 ∧ t._headers[i]? = some hd ∧
      t2._column_sizes[i]? = some (if t._data = [] then hd.length else max hd.length 6) := by
  obtain ⟨cs, hc, _, hpt⟩ := computeColumnSizes_spec t h
  have hlt : i < t._headers.length := by
    have := h.1; have := h.2.1; omega
  refine ⟨_, t._headers[i], hc, List.getElem?_eq_getElem hlt, ?_⟩
  rw [hpt i hi, specWidth_percent t h i hi hp]
  simp [List.getD, List.getElem?_eq_getElem hlt]

/-- Witness of the amended C4: the PERCENT column of `tablePercent` has width 6. -/
theorem percent_width_witness :
    tablePercent.Inv ∧ 0 < tablePercent._num_columns ∧ tablePercent.isPercent 0 ∧
    ∃ t2 hd, tablePercent.computeColumnSizes = some t2 ∧ tablePercent._headers[0]? = some hd ∧
      t2._column_sizes[0]?
        = some (if tablePercent._data = [] then hd.length else max hd.length 6) :=
  ⟨by decide, by decide, by decide, percent_width tablePercent (by decide) 0 (by decide) (by decide)⟩

theorem computeSize_eq_computeSizeInt (t : Tabulator) (v : Int) (hlo : INT_MIN < v)
    (hhi : v ≤ INT_MAX) : computeSizeInt v = some (t.computeSize (Cell.int v)) := by
  unfold computeSizeInt computeSize intMul
  unfold INT_MIN at hlo
  unfold INT_MAX at hhi
  by_cases h0 : v = 0
  · simp [h0]
  · by_cases hneg : v < 0
    · have hr : INT_MIN ≤ v * (-1) ∧ v * (-1) ≤ INT_MAX := by
        unfold INT_MIN INT_MAX
        omega
      simp only [h0, hneg, if_false, if_true, if_pos hr, Option.map_some']
    · simp only [h0, hneg, if_false]

theorem computeSizeInt_INT_MIN : computeSizeInt INT_MIN = none := by decide

/-- C7 (integer display width). For every `int` value `v` other than `INT_MIN`,
`computeSize` returns 1 when `v = 0` and otherwise the integer part of the
decimal logarithm of `|v|` plus 1; this is the number of characters of the
decimal representation of `|v|`, and `computeSize (-v)` is `computeSize v`. For
`INT_MIN` the product `data * (-1)` is not an `int` and the result is undefined,
where the decimal representation of `|v|` has 10 characters. -/
theorem computeSize_int (v : Int) (hlo : INT_MIN ≤ v) (hhi : v ≤ INT_MAX) :
    (v ≠ INT_MIN →
      computeSizeInt v = some (if v = 0 then 1 else Nat.log 10 v.natAbs + 1) ∧
      computeSizeInt v = some (toString v.natAbs).length ∧
      computeSizeInt (-v) = computeSizeInt v) ∧
    intMul INT_MIN (-1) = none ∧ computeSizeInt INT_MIN = none ∧
    (toString INT_MIN.natAbs).length = 10 := by
  have t0 : Tabulator :=
    { Ts := [], _headers := [], _num_columns := 0, _static_column_size := 0,
      _cell_padding := 0, _data := [], _column_sizes := [], _column_format := [],
      _precision := [] }
  refine ⟨fun hne => ?_, by decide, by decide, by decide⟩
  have hlt : INT_MIN < v := lt_of_le_of_ne hlo (Ne.symm hne)
  have hneg : INT_MIN < -v ∧ -v ≤ INT_MAX := by
    unfold INT_MIN INT_MAX
    unfold INT_MIN at hlt
    unfold INT_MAX at hhi
    omega
  rw [computeSize_eq_computeSizeInt t0 v hlt hhi,
    computeSize_eq_computeSizeInt t0 (-v) hneg.1 hneg.2]
  refine ⟨?_, ?_, ?_⟩
  · rw [computeSize_int_log]
    by_cases h0 : v = 0
    · simp [h0]
    · simp [h0]
  · rw [computeSize_int_log, toString_nat_length]
  · rw [computeSize_int_log, computeSize_int_log, Int.natAbs_neg]

/-- Witness of C7 at `-5`. -/
theorem computeSize_int_witness :
    INT_MIN ≤ -5 ∧ (-5 : Int) ≤ INT_MAX ∧
    ((-5 : Int) ≠ INT_MIN →
      computeSizeInt (-5) = some (if (-5 : Int) = 0 then 1 else Nat.log 10 (-5 : Int).natAbs + 1) ∧
      computeSizeInt (-5) = some (toString (-5 : Int).natAbs).length ∧
      computeSizeInt (- -5) = computeSizeInt (-5)) ∧
    intMul INT_MIN (-1) = none ∧ computeSizeInt INT_MIN = none ∧
    (toString INT_MIN.natAbs).length = 10 :=
  ⟨by decide, by decide, computeSize_int (-5) (by decide) (by decide)⟩

end Tabulator

/-! ## Claims on the layout -/

theorem foldl_add_eq_sum (c : Nat) (l : List Nat) :
    ∀ init, l.foldl (fun a w => a + (w + c)) init = init + (l.map fun w => w + c).sum := by
  induction l with
  | nil => intro init; simp
  | cons x xs ih => intro init; simp [ih]; omega

theorem strFill_all (n : Nat) (c : Char) : ∀ d ∈ (strFill n c).data, d = c := by
  intro d hd
  simp [strFill] at hd
  exact hd.2

namespace Tabulator

theorem totalWidth_eq (t : Tabulator) :
    t.totalWidth
      = t._num_columns + 1 + (t._column_sizes.map fun w => w + 2 * t._cell_padding).sum := by
  unfold totalWidth
  exact foldl_add_eq_sum _ _ _

theorem dataLines_length (fmtDouble : DoubleFmt) (t : Tabulator) :
    ∀ (rows : List (List Cell)) (stream : OStream),
      (t.dataLines fmtDouble rows stream).length = rows.length := by
  intro rows
  induction rows with
  | nil => intro stream; rfl
  | cons row rest ih => intro stream; simp [dataLines, ih]

/-- Line `k` of `dataLines` is the line of row `k`, written from a stream of
width zero. -/
theorem dataLines_getElem (fmtDouble : DoubleFmt) (t : Tabulator) :
    ∀ (rows : List (List Cell)) (stream : OStream), stream.width = 0 →
      ∀ (k : Nat) (row : List Cell), rows[k]? = some row →
        ∃ sk : OStream, sk.width = 0 ∧
          (t.dataLines fmtDouble rows stream)[k]? = some (t.rowLine fmtDouble row sk) := by
  intro rows
  induction rows with
  | nil => intro stream _ k row hk; simp at hk
  | cons r rest ih =>
    intro stream hwidth k row hk
    cases k with
    | zero =>
      simp at hk
      subst hk
      exact ⟨stream, hwidth, by simp [dataLines]⟩
    | succ j =>
      simp at hk
      obtain ⟨sk, h1, h2⟩ := ih ((t.rowDone fmtDouble r (stream.write "|")).write "\n") rfl j row hk
      exact ⟨sk, h1, by simpa [dataLines] using h2⟩

theorem rowLoop_out (fmtDouble : DoubleFmt) (t : Tabulator) (row : List Cell) :
    ∀ count lo (stream : OStream), stream.width = 0 →
      ∃ x, (iterFrom (t.rowStep fmtDouble row) count lo stream).out = stream.out ++ x ∧
        (x = "" ∨ ∃ y, x = y ++ "|") := by
  intro count
  induction count with
  | zero => intro lo stream _; exact ⟨"", by simp [iterFrom], Or.inl rfl⟩
  | succ k ih =>
    intro lo stream hwidth
    obtain ⟨x, hx, hx2⟩ := ih (lo + 1) (t.rowStep fmtDouble row lo stream)
      (cellDone_width _ _ _ _ _ _)
    have hstep : (t.rowStep fmtDouble row lo stream).out
        = stream.out ++ t.cellText fmtDouble lo (row.getD lo (Cell.int 0))
            (t._column_sizes.getD lo 0) stream := cellDone_out _ _ _ _ _ _ hwidth
    refine ⟨t.cellText fmtDouble lo (row.getD lo (Cell.int 0))
      (t._column_sizes.getD lo 0) stream ++ x, ?_, Or.inr ?_⟩
    · simp only [iterFrom, hx, hstep, String.append_assoc]
    · rcases hx2 with h | ⟨y, h⟩
      · subst h
        exact ⟨_, by simp only [cellText, str_append_empty]; rfl⟩
      · subst h
        exact ⟨_, (String.append_assoc _ _ _).symm⟩

/-- A data line begins and ends with a bar. -/
theorem rowLine_bars (fmtDouble : DoubleFmt) (t : Tabulator) (row : List Cell)
    (stream : OStream) (hwidth : stream.width = 0) :
    (t.rowLine fmtDouble row stream).data.head? = some '|' ∧
    (t.rowLine fmtDouble row stream).data.getLast? = some '|' := by
  obtain ⟨x, hx, hx2⟩ := rowLoop_out fmtDouble t row t.tupleSize 0
    ((stream.withOut "").write "|") rfl
  have hout : ((stream.withOut "").write "|").out = "|" := by
    rw [OStream.write_out _ _ (by simpa [OStream.withOut] using hwidth)]
    simp [OStream.withOut]
  have hline : t.rowLine fmtDouble row stream = "|" ++ x := by
    unfold rowLine rowDone
    rw [hx, hout]
  rw [hline]
  rcases hx2 with h | ⟨y, h⟩
  · subst h; simp
  · subst h
    refine ⟨by simp, ?_⟩
    simp only [String.data_append]
    rw [← List.append_assoc, List.getLast?_append]
    simp

end Tabulator

namespace Tabulator

end Tabulator

/-! ## Claims on the header line -/

namespace Tabulator

theorem headerCells_eq_zip (t : Tabulator) (hlen : t._column_sizes.length = t._headers.length) :
    ∀ count lo, lo + count = t._column_sizes.length →
      t.headerCells count lo
        = concatAll (List.zipWith t.headerCell (t._column_sizes.drop lo) (t._headers.drop lo)) := by
  intro count
  induction count with
  | zero =>
    intro lo hlo
    have : t._column_sizes.drop lo = [] := List.drop_eq_nil_of_le (by omega)
    simp [headerCells, this, concatAll]
  | succ k ih =>
    intro lo hlo
    have h1 : lo < t._column_sizes.length := by omega
    have h2 : lo < t._headers.length := by omega
    rw [List.drop_eq_getElem_cons h1, List.drop_eq_getElem_cons h2]
    simp only [headerCells, List.zipWith_cons_cons, concatAll, ih (lo + 1) (by omega)]
    simp [List.getD, List.getElem?_eq_getElem h1, List.getElem?_eq_getElem h2]

theorem sizeSub_half (w l : Nat) (h : l ≤ w) : sizeSub (w / 2) (l / 2) = w / 2 - l / 2 := by
  unfold sizeSub
  rw [if_pos (Nat.div_le_div_right h)]

theorem headerCell_of_le (t : Tabulator) (w : Nat) (hd : String) (h : hd.length ≤ w) :
    t.headerCell w hd
      = strFill t._cell_padding ' ' ++
          (strFill (w / 2 - hd.length / 2) ' ' ++ hd ++
            strFill (w - (w / 2 - hd.length / 2) - hd.length) ' ') ++
          strFill t._cell_padding ' ' ++ "|" := by
  unfold headerCell
  rw [sizeSub_half w hd.length h]
  simp [Nat.sub_sub]

end Tabulator

namespace Tabulator

end Tabulator

/-! ## Claims on the line lengths -/

theorem sum_map_add_succ (c : Nat) (l : List Nat) :
    (l.map fun w => w + (c + 1)).sum = (l.map fun w => w + c).sum + l.length := by
  induction l with
  | nil => simp
  | cons x xs ih => simp [ih]; omega

theorem toString_int_of_nonneg (v : Int) (h : 0 ≤ v) : toString v = toString v.toNat := by
  cases v with
  | ofNat n => rfl
  | negSucc n => exact absurd h (by simp)

theorem OStream.padded_length (stream : OStream) (text : String)
    (h : text.length ≤ stream.width) : (stream.padded text).length = stream.width := by
  unfold OStream.padded
  cases stream.adjustfield <;> simp <;> omega

namespace Tabulator

theorem justify_width (stream : OStream) (val : Cell) :
    (justify stream val).width = stream.width := by
  cases val <;> rfl

theorem cellText_length (fmtDouble : DoubleFmt) (t : Tabulator) (I : Nat) (val : Cell)
    (w : Nat) (stream : OStream)
    (hfit : ∀ st : OStream, (st.valText fmtDouble val).length ≤ w) :
    (t.cellText fmtDouble I val w stream).length = w + (2 * t._cell_padding + 1) := by
  unfold cellText cellField
  have hp := OStream.padded_length (justify ((t.cellFormat I stream).setw w) val)
    ((t.cellFormat I stream).valText fmtDouble val)
    (by rw [justify_width]; exact hfit _)
  rw [justify_width] at hp
  simp only [String.length_append, hp, strFill_length]
  simp [OStream.setw]
  have : "|".length = 1 := rfl
  omega

theorem rowLoop_length (fmtDouble : DoubleFmt) (t : Tabulator) (row : List Cell)
    (hrow : row.length = t._column_sizes.length)
    (hfit : ∀ (i : Nat) (val : Cell) (w : Nat), row[i]? = some val →
      t._column_sizes[i]? = some w → ∀ st : OStream, (st.valText fmtDouble val).length ≤ w) :
    ∀ count lo (stream : OStream), stream.width = 0 → lo + count = t._column_sizes.length →
      (iterFrom (t.rowStep fmtDouble row) count lo stream).out.length
        = stream.out.length
          + ((t._column_sizes.drop lo).map fun w => w + (2 * t._cell_padding + 1)).sum := by
  intro count
  induction count with
  | zero =>
    intro lo stream _ hlo
    have : t._column_sizes.drop lo = [] := List.drop_eq_nil_of_le (by omega)
    simp [iterFrom, this]
  | succ k ih =>
    intro lo stream hwidth hlo
    have h1 : lo < t._column_sizes.length := by omega
    have h2 : lo < row.length := by omega
    have hstep : (t.rowStep fmtDouble row lo stream).out
        = stream.out ++ t.cellText fmtDouble lo (row.getD lo (Cell.int 0))
            (t._column_sizes.getD lo 0) stream := cellDone_out _ _ _ _ _ _ hwidth
    have hlen := cellText_length fmtDouble t lo (row.getD lo (Cell.int 0))
      (t._column_sizes.getD lo 0) stream
      (hfit lo _ _ (by simp [List.getD, List.getElem?_eq_getElem h2])
        (by simp [List.getD, List.getElem?_eq_getElem h1]))
    have hg : t._column_sizes.getD lo 0 = t._column_sizes[lo] := by
      simp [List.getD, List.getElem?_eq_getElem h1]
    simp only [iterFrom]
    rw [ih (lo + 1) (t.rowStep fmtDouble row lo stream) (cellDone_width _ _ _ _ _ _) (by omega),
      hstep, String.length_append, hlen, List.drop_eq_getElem_cons h1, hg]
    simp only [List.map_cons, List.sum_cons]
    omega

theorem rowLine_length (fmtDouble : DoubleFmt) (t : Tabulator) (row : List Cell)
    (stream : OStream) (hwidth : stream.width = 0)
    (hnum : t._column_sizes.length = t.tupleSize)
    (hrow : row.length = t._column_sizes.length)
    (hfit : ∀ (i : Nat) (val : Cell) (w : Nat), row[i]? = some val →
      t._column_sizes[i]? = some w → ∀ st : OStream, (st.valText fmtDouble val).length ≤ w) :
    (t.rowLine fmtDouble row stream).length
      = 1 + (t._column_sizes.map fun w => w + (2 * t._cell_padding + 1)).sum := by
  unfold rowLine rowDone
  rw [rowLoop_length fmtDouble t row hrow hfit t.tupleSize 0 _ rfl (by omega),
    OStream.write_out _ _ (by simpa [OStream.withOut] using hwidth)]
  simp [OStream.withOut]
  rfl

theorem headerCell_length (t : Tabulator) (w : Nat) (hd : String) (h : hd.length ≤ w) :
    (t.headerCell w hd).length = w + (2 * t._cell_padding + 1) := by
  rw [headerCell_of_le t w hd h]
  simp only [String.length_append, strFill_length]
  have : "|".length = 1 := rfl
  omega

theorem headerCells_length (t : Tabulator)
    (hlen : t._column_sizes.length = t._headers.length)
    (hfit : ∀ (i w : Nat) (hd : String), t._column_sizes[i]? = some w →
      t._headers[i]? = some hd → hd.length ≤ w) :
    ∀ count lo, lo + count = t._column_sizes.length →
      (t.headerCells count lo).length
        = ((t._column_sizes.drop lo).map fun w => w + (2 * t._cell_padding + 1)).sum := by
  intro count
  induction count with
  | zero =>
    intro lo hlo
    have : t._column_sizes.drop lo = [] := List.drop_eq_nil_of_le (by omega)
    simp [headerCells, this]
  | succ k ih =>
    intro lo hlo
    have h1 : lo < t._column_sizes.length := by omega
    have h2 : lo < t._headers.length := by omega
    have hc := headerCell_length t (t._column_sizes.getD lo 0) (t._headers.getD lo "")
      (hfit lo _ _ (by simp [List.getD, List.getElem?_eq_getElem h1])
        (by simp [List.getD, List.getElem?_eq_getElem h2]))
    have hg : t._column_sizes.getD lo 0 = t._column_sizes[lo] := by
      simp [List.getD, List.getElem?_eq_getElem h1]
    simp only [headerCells, String.length_append, hc, ih (lo + 1) (by omega)]
    rw [List.drop_eq_getElem_cons h1, hg]
    simp only [List.map_cons, List.sum_cons]

theorem mem_dataLines (fmtDouble : DoubleFmt) (t : Tabulator) :
    ∀ (rows : List (List Cell)) (stream : OStream), stream.width = 0 →
      ∀ l ∈ t.dataLines fmtDouble rows stream,
        ∃ row ∈ rows, ∃ sk : OStream, sk.width = 0 ∧ l = t.rowLine fmtDouble row sk := by
  intro rows
  induction rows with
  | nil => intro stream _ l hl; simp [dataLines] at hl
  | cons r rest ih =>
    intro stream hwidth l hl
    simp only [dataLines, List.mem_cons] at hl
    rcases hl with h | h
    · exact ⟨r, List.mem_cons_self _ _, stream, hwidth, h⟩
    · obtain ⟨row, hrow, sk, hsk, hline⟩ := ih _ rfl l h
      exact ⟨row, List.mem_cons_of_mem _ hrow, sk, hsk, hline⟩

end Tabulator

namespace Tabulator

theorem specWidth_header_le (t : Tabulator) (i : Nat) :
    (t._headers.getD i "").length ≤ t.specWidth i :=
  foldl_max_init_le _ _

theorem specWidth_cell_le (t : Tabulator) (i : Nat) (row : List Cell) (val : Cell)
    (hrow : row ∈ t._data) (hval : row[i]? = some val) :
    t.cellWidth i val ≤ t.specWidth i := by
  apply foldl_max_mem_le
  apply List.mem_map_of_mem
  unfold column
  rw [List.mem_filterMap]
  exact ⟨row, hrow, hval⟩

theorem valText_length_of_textOrNat (fmtDouble : DoubleFmt) (t : Tabulator) (val : Cell)
    (h : val.textOrNat = true) (st : OStream) :
    (st.valText fmtDouble val).length = t.computeSize val := by
  cases val with
  | text s => rfl
  | real x => simp [Cell.textOrNat] at h
  | int v =>
    have hv : 0 ≤ v := by simpa [Cell.textOrNat] using h
    rw [computeSize_int_log]
    show (toString v).length = _
    rw [toString_int_of_nonneg v hv, toString_nat_length]
    have : v.toNat = v.natAbs := by omega
    rw [this]

theorem not_isPercent_of_not_mem (t : Tabulator) (i : Nat)
    (h : ColumnFormat.PERCENT ∉ t._column_format) : ¬ t.isPercent i := by
  intro hp
  exact h (List.getElem?_mem hp)

end Tabulator

/-! ## Rendering twice -/

namespace Tabulator

/-- C5 on `tableLeak`, a table built through the public members. The first
`print` on a fresh stream writes `1.125` in the first column and leaves the
stream at precision 2, which the PERCENT column has set and the reset of the
float notation does not undo; the second `print` on the same stream therefore
writes `1.1` in the first column, so the two texts differ. -/
theorem print_twice_differs :
    ((Tabulator.new [CType.double, CType.double] ["Raw", "Share"] 8 1).bind fun t =>
      (t.setColumnFormat [ColumnFormat.AUTO, ColumnFormat.PERCENT]).bind fun t =>
        t.addRow [Cell.real ⟨1125, -3⟩, Cell.real ⟨35, -1⟩]) = some tableLeak ∧
    OStream.fresh.precision = 6 ∧
    (tableLeak.print sampleFmt OStream.fresh).map (fun r => (r.2.out, r.2.precision))
      = some ("---------------------\n|    Raw   |  Share |\n---------------------\n"
          ++ "|    1.125 |   3.50 |\n---------------------\n", 2) ∧
    ((tableLeak.print sampleFmt OStream.fresh).bind fun r =>
        (r.1.print sampleFmt (r.2.withOut "")).map fun r2 => r2.2.out)
      = some ("---------------------\n|    Raw   |  Share |\n---------------------\n"
          ++ "|      1.1 |   3.50 |\n---------------------\n") ∧
    ((tableLeak.print sampleFmt OStream.fresh).bind fun r =>
        (r.1.print sampleFmt (r.2.withOut "")).map fun r2 => r2.2.out)
      ≠ (tableLeak.print sampleFmt OStream.fresh).map (fun r => r.2.out) := by
  refine ⟨by decide, by decide, by decide, by decide, by decide⟩

end Tabulator

/-! ## Claims on the data cells -/

namespace Tabulator

theorem cellField_eq (fmtDouble : DoubleFmt) (t : Tabulator) (I : Nat) (val : Cell) (w : Nat)
    (stream : OStream) :
    t.cellField fmtDouble I val w stream
      = if val.type = CType.string then
          (t.cellFormat I stream).valText fmtDouble val
            ++ strFill (w - ((t.cellFormat I stream).valText fmtDouble val).length) ' '
        else
          strFill (w - ((t.cellFormat I stream).valText fmtDouble val).length) ' '
            ++ (t.cellFormat I stream).valText fmtDouble val := by
  unfold cellField
  cases val <;> simp [justify, OStream.padded, OStream.setw, OStream.left, OStream.right, Cell.type]

end Tabulator

/-! ## Claims on the configuration -/

namespace Tabulator

/-- C12 (length contract of `setColumnFormat`). On every table and every list of
format modes the assertion of `setColumnFormat` fails exactly when the length of
the list differs from the tuple size, that is the number of columns; when it
fails the table is as before, since the assignment follows the assertion; when
it holds the format list is the given list and no other member changes. -/
theorem setColumnFormat_contract (t : Tabulator) (column_format : List ColumnFormat) :
    (t.setColumnFormat column_format = none ↔ column_format.length ≠ t.tupleSize) ∧
    (t.setColumnFormat column_format = none →
      t.setColumnFormatEnd column_format = t ∧
      (t.setColumnFormatEnd column_format)._column_format = t._column_format) ∧
    (∀ t2, t.setColumnFormat column_format = some t2 →
      t2 = { t with _column_format := column_format } ∧
      t2._column_format = column_format ∧
      t.setColumnFormatEnd column_format = t2) ∧
    (t.Inv → t.tupleSize = t._num_columns ∧ t.tupleSize = t._headers.length) := by
  unfold setColumnFormat setColumnFormatEnd
  by_cases h : column_format.length = t.tupleSize
  · simp only [if_pos h]
    refine ⟨by simp [h], by simp, ?_, ?_⟩
    · intro t2 h2
      cases h2
      exact ⟨rfl, rfl, rfl⟩
    · intro hinv
      exact ⟨hinv.1.symm, hinv.2.1.symm⟩
  · simp only [if_neg h]
    refine ⟨by simp [h], by simp, ?_, ?_⟩
    · intro t2 h2
      cases h2
    · intro hinv
      exact ⟨hinv.1.symm, hinv.2.1.symm⟩

/-- Witness of C12 (Scenario D): three columns and two format entries fail. -/
theorem setColumnFormat_contract_witness :
    tableA.tupleSize = 3 ∧ [ColumnFormat.AUTO, ColumnFormat.AUTO].length = 2 ∧
    tableA.setColumnFormat [ColumnFormat.AUTO, ColumnFormat.AUTO] = none ∧
    tableA.setColumnFormatEnd [ColumnFormat.AUTO, ColumnFormat.AUTO] = tableA :=
  ⟨by decide, by decide,
    (setColumnFormat_contract tableA [ColumnFormat.AUTO, ColumnFormat.AUTO]).1.mpr (by decide),
    ((setColumnFormat_contract tableA [ColumnFormat.AUTO, ColumnFormat.AUTO]).2.1
      ((setColumnFormat_contract tableA [ColumnFormat.AUTO, ColumnFormat.AUTO]).1.mpr
        (by decide))).1⟩

theorem cellFormat_percent (t : Tabulator) (I : Nat) (stream : OStream) (hp : t.isPercent I) :
    (t.cellFormat I stream).floatfield = FloatField.fixed ∧
    (t.cellFormat I stream).precision = 2 := by
  unfold isPercent at hp
  unfold cellFormat
  rw [hp]
  cases t._precision[I]? <;> simp [OStream.fixed, OStream.setprecision]

/-- C13 (PERCENT precision override). For every column `I` in PERCENT mode and
every precision list, empty or with one entry per column, the stream on which
`printRow` runs its output statement for entry `I` has fixed notation and
precision 2; a `double` entry is therefore written as the library writes it in
fixed notation with precision 2, right-justified in the column width. -/
theorem percent_precision (fmtDouble : DoubleFmt) (t : Tabulator) (row : List Cell) (I : Nat)
    (stream : OStream) (val : Cell) (w : Nat)
    (hval : row[I]? = some val) (hw : t._column_sizes[I]? = some w)
    (hprec : t._precision = [] ∨ t._precision.length = t.tupleSize)
    (hfmt : t._column_format = [] ∨ t._column_format.length = t.tupleSize)
    (hI : I < t.tupleSize) (hwidth : stream.width = 0) (hp : t.isPercent I) :
    ∃ s1 : OStream,
      (t.precisionBlock I stream).bind (t.formatBlock I) = some s1 ∧
      s1.floatfield = FloatField.fixed ∧ s1.precision = 2 ∧
      t.printRowStep fmtDouble row I stream = some (t.writeCell fmtDouble val w s1) ∧
      (∀ x, val = Cell.real x →
        s1.valText fmtDouble val = fmtDouble FloatField.fixed 2 x ∧
        (t.writeCell fmtDouble val w s1).out
          = stream.out ++ (strFill t._cell_padding ' '
              ++ (strFill (w - (fmtDouble FloatField.fixed 2 x).length) ' '
                ++ fmtDouble FloatField.fixed 2 x)
              ++ strFill t._cell_padding ' ' ++ "|")) := by
  obtain ⟨h1, h2⟩ := cellFormat_percent t I stream hp
  refine ⟨t.cellFormat I stream, ?_, h1, h2,
    printRowStep_eq fmtDouble t row I stream val w hval hw hprec hfmt hI, ?_⟩
  · rw [precisionBlock_eq t I stream hprec hI]
    simp only [Option.some_bind]
    rw [formatBlock_eq t I _ hfmt hI]
    rfl
  · intro x hx
    subst hx
    have htxt : (t.cellFormat I stream).valText fmtDouble (Cell.real x)
        = fmtDouble FloatField.fixed 2 x := by
      simp [OStream.valText, h1, h2]
    refine ⟨htxt, ?_⟩
    have hout := cellDone_out fmtDouble t I (Cell.real x) w stream hwidth
    unfold cellDone at hout
    rw [hout, cellText, cellField_eq, htxt]
    simp [Cell.type]

/-- Witness of C13: the PERCENT entry 3.5 of `tablePercent`. -/
theorem percent_precision_witness :
    [Cell.real ⟨35, -1⟩, Cell.text "Pineapple"][0]? = some (Cell.real ⟨35, -1⟩) ∧
    tablePercentSized._column_sizes[0]? = some 6 ∧
    (tablePercentSized._precision = []
      ∨ tablePercentSized._precision.length = tablePercentSized.tupleSize) ∧
    (tablePercentSized._column_format = []
      ∨ tablePercentSized._column_format.length = tablePercentSized.tupleSize) ∧
    0 < tablePercentSized.tupleSize ∧ OStream.fresh.width = 0 ∧ tablePercentSized.isPercent 0 ∧
    ∃ s1 : OStream,
      (tablePercentSized.precisionBlock 0 OStream.fresh).bind (tablePercentSized.formatBlock 0)
        = some s1 ∧
      s1.floatfield = FloatField.fixed ∧ s1.precision = 2 ∧
      tablePercentSized.printRowStep sampleFmt [Cell.real ⟨35, -1⟩, Cell.text "Pineapple"] 0
          OStream.fresh
        = some (tablePercentSized.writeCell sampleFmt (Cell.real ⟨35, -1⟩) 6 s1) ∧
      (∀ x, Cell.real ⟨35, -1⟩ = Cell.real x →
        s1.valText sampleFmt (Cell.real ⟨35, -1⟩) = sampleFmt FloatField.fixed 2 x ∧
        (tablePercentSized.writeCell sampleFmt (Cell.real ⟨35, -1⟩) 6 s1).out
          = OStream.fresh.out ++ (strFill tablePercentSized._cell_padding ' '
              ++ (strFill (6 - (sampleFmt FloatField.fixed 2 x).length) ' '
                ++ sampleFmt FloatField.fixed 2 x)
              ++ strFill tablePercentSized._cell_padding ' ' ++ "|")) :=
  ⟨by decide, by decide, by decide, by decide, by decide, rfl, by decide,
    percent_precision sampleFmt tablePercentSized [Cell.real ⟨35, -1⟩, Cell.text "Pineapple"] 0
      OStream.fresh (Cell.real ⟨35, -1⟩) 6 (by decide) (by decide) (by decide) (by decide)
      (by decide) rfl (by decide)⟩

end Tabulator

namespace Tabulator

theorem writeCell_state (fmtDouble : DoubleFmt) (t : Tabulator) (val : Cell) (w : Nat)
    (stream : OStream) :
    (t.writeCell fmtDouble val w stream).precision = stream.precision ∧
    (t.writeCell fmtDouble val w stream).floatfield
      = (if t._column_format.isEmpty then stream.floatfield else FloatField.unset) := by
  unfold writeCell
  cases val <;> by_cases he : t._column_format.isEmpty <;>
    simp [he, OStream.write, OStream.setw, justify, OStream.insert, OStream.left,
      OStream.right, OStream.unsetfFloatfield]

theorem cellFormat_floatfield (t : Tabulator) (J : Nat) (s : OStream)
    (hs : s.floatfield = FloatField.unset) :
    (t.cellFormat J s).floatfield = modeNotation (t._column_format[J]?) := by
  unfold cellFormat
  rcases t._precision[J]? with _ | p <;> rcases t._column_format[J]? with _ | f
  · simpa [modeNotation] using hs
  · cases f <;> simp [modeNotation, OStream.fixed, OStream.scientific, OStream.setprecision, hs]
  · simpa [modeNotation, OStream.setprecision] using hs
  · cases f <;> simp [modeNotation, OStream.fixed, OStream.scientific, OStream.setprecision, hs]

theorem cellFormat_precision (t : Tabulator) (J : Nat) (s : OStream) :
    (t.cellFormat J s).precision
      = if t.isPercent J then 2
        else match t._precision[J]? with
          | some p => p
          | none => s.precision := by
  by_cases hp : t.isPercent J
  · rw [if_pos hp]
    exact (cellFormat_percent t J s hp).2
  · rw [if_neg hp]
    unfold isPercent at hp
    unfold cellFormat
    cases hf : t._column_format[J]? with
    | none => cases t._precision[J]? <;> simp [OStream.setprecision]
    | some f =>
      rw [hf] at hp
      cases f
      · cases t._precision[J]? <;> simp [OStream.setprecision]
      · cases t._precision[J]? <;> simp [OStream.setprecision, OStream.scientific]
      · cases t._precision[J]? <;> simp [OStream.setprecision, OStream.fixed]
      · exact absurd rfl hp

end Tabulator

/-! ## Claims on the schema and on `addRow` -/

namespace Tabulator

theorem Inv_print (fmtDouble : DoubleFmt) (t t2 : Tabulator) (stream s2 : OStream)
    (hinv : t.Inv) (h : t.print fmtDouble stream = some (t2, s2)) : t2.Inv := by
  obtain ⟨cs, _, _, _, hp⟩ := print_eq fmtDouble t stream hinv
  rw [hp] at h
  have h2 : ({ t with _column_sizes := cs } : Tabulator) = t2 :=
    congrArg Prod.fst (Option.some.inj h)
  rw [← h2]
  exact hinv

theorem Reachable.inv {t : Tabulator} (h : t.Reachable) : t.Inv := by
  induction h with
  | construct Ts headers sc cp t h => exact Inv_new Ts headers sc cp t h
  | addRow t t2 entries _ h ih => exact Inv_addRow t t2 entries ih h
  | setColumnFormat t t2 cf _ h ih => exact Inv_setColumnFormat t t2 cf ih h
  | setColumnPrecision t t2 pr _ h ih => exact Inv_setColumnPrecision t t2 pr ih h
  | print t t2 fmtDouble stream s2 _ h ih => exact Inv_print fmtDouble t t2 stream s2 ih h

/-- C15 (schema invariant). The constructor returns exactly when the number of
header labels is the number of column types. In every table reached from such
a construction by calls of `addRow`, `setColumnFormat`, `setColumnPrecision` and
`print`, the number of header labels is the number of column types, every
stored row has as many entries as there are header labels, and `addRow` stores
no row of another cardinality. -/
theorem schema_invariant (t : Tabulator) (h : t.Reachable) :
    t._headers.length = t.tupleSize ∧ t._num_columns = t.tupleSize ∧
    (∀ row ∈ t._data, row.length = t._headers.length) ∧
    (∀ entries : List Cell, entries.length ≠ t._headers.length → t.addRow entries = none) ∧
    (∀ (Ts : List CType) (headers : List String) (static_column_size cell_padding : Nat),
      (Tabulator.new Ts headers static_column_size cell_padding).isSome
        ↔ headers.length = Ts.length) := by
  have hinv := Reachable.inv h
  have hrows := Inv.row_length hinv
  obtain ⟨hnum, hhead, _, _, _⟩ := hinv
  refine ⟨hhead, hnum, ?_, ?_, ?_⟩
  · intro row hrow
    rw [hrows row hrow, hhead]
    rfl
  · intro entries hne
    unfold Tabulator.addRow
    rw [if_neg]
    intro hty
    apply hne
    have := congrArg List.length hty
    rw [List.length_map] at this
    omega
  · intro Ts headers sc cp
    unfold Tabulator.new
    by_cases hl : headers.length = Ts.length
    · simp [hl]
    · simp [hl]

/-- Witness of C15 on the table of Scenario A, reached by a construction and two
calls of `addRow`. -/
theorem schema_invariant_witness :
    tableA.Reachable ∧
    tableA._headers.length = tableA.tupleSize ∧ tableA._num_columns = tableA.tupleSize ∧
    (∀ row ∈ tableA._data, row.length = tableA._headers.length) ∧
    (∀ entries : List Cell, entries.length ≠ tableA._headers.length →
      tableA.addRow entries = none) ∧
    (∀ (Ts : List CType) (headers : List String) (static_column_size cell_padding : Nat),
      (Tabulator.new Ts headers static_column_size cell_padding).isSome
        ↔ headers.length = Ts.length) :=
  have hr : tableA.Reachable :=
    Reachable.addRow { tableA with _data := [[Cell.int 1, Cell.text "Apple", Cell.int 10]] }
      tableA [Cell.int 2, Cell.text "Pineapple", Cell.int 30]
      (Reachable.addRow { tableA with _data := [] }
        { tableA with _data := [[Cell.int 1, Cell.text "Apple", Cell.int 10]] }
        [Cell.int 1, Cell.text "Apple", Cell.int 10]
        (Reachable.construct [CType.int, CType.string, CType.int] ["ID", "Name", "Price"] 0 1
          { tableA with _data := [] } (by decide))
        (by decide))
      (by decide)
  ⟨hr, schema_invariant tableA hr⟩

/-- C16 (Scenario A). The table with the column types `int`, `std::string`,
`int`, the headers `ID`, `Name`, `Price` and the rows `(1, Apple, 10)` and
`(2, Pineapple, 30)`, built through the public members without format or
precision overrides, gets the widths 2, 9 and 5 from `computeColumnSizes`, and
these are the widths that `print` leaves. -/
theorem scenarioA_widths :
    ((Tabulator.new [CType.int, CType.string, CType.int] ["ID", "Name", "Price"] 0 1).bind
      fun t => (t.addRow [Cell.int 1, Cell.text "Apple", Cell.int 10]).bind
        fun t => t.addRow [Cell.int 2, Cell.text "Pineapple", Cell.int 30]) = some tableA ∧
    tableA._column_format = [] ∧ tableA._precision = [] ∧
    tableA.computeColumnSizes.map (fun t => t._column_sizes) = some [2, 9, 5] ∧
    (tableA.print (fun _ _ _ => "") OStream.fresh).map (fun r => r.1._column_sizes)
      = some [2, 9, 5] := by
  refine ⟨by decide, by decide, by decide, by decide, by decide⟩

/-- C17 (effect of `addRow`). On every table and every row of entries of the
column types, `addRow` returns; the stored rows are the former rows followed by
the new row, and every other member, the column widths among them, is as
before. -/
theorem addRow_effect (t : Tabulator) (entries : List Cell)
    (hty : entries.map Cell.type = t.Ts) :
    ∃ t2, t.addRow entries = some t2 ∧
      t2._data = t._data ++ [entries] ∧
      t2._headers = t._headers ∧ t2._num_columns = t._num_columns ∧
      t2._static_column_size = t._static_column_size ∧ t2._cell_padding = t._cell_padding ∧
      t2._column_format = t._column_format ∧ t2._precision = t._precision ∧
      t2._column_sizes = t._column_sizes ∧ t2.Ts = t.Ts ∧
      t2 = { t with _data := t._data ++ [entries] } := by
  refine ⟨{ t with _data := t._data ++ [entries] }, ?_, rfl, rfl, rfl, rfl, rfl, rfl, rfl, rfl,
    rfl, rfl⟩
  unfold Tabulator.addRow
  rw [if_pos hty]

/-- Witness of C17: a third row added to the table of Scenario A, whose widths
from an earlier `print` stay as they are. -/
theorem addRow_effect_witness :
    [Cell.int 3, Cell.text "Fig", Cell.int 100].map Cell.type = tableASized.Ts ∧
    ∃ t2, tableASized.addRow [Cell.int 3, Cell.text "Fig", Cell.int 100] = some t2 ∧
      t2._data = tableASized._data ++ [[Cell.int 3, Cell.text "Fig", Cell.int 100]] ∧
      t2._headers = tableASized._headers ∧ t2._num_columns = tableASized._num_columns ∧
      t2._static_column_size = tableASized._static_column_size ∧
      t2._cell_padding = tableASized._cell_padding ∧
      t2._column_format = tableASized._column_format ∧
      t2._precision = tableASized._precision ∧
      t2._column_sizes = tableASized._column_sizes ∧ t2.Ts = tableASized.Ts ∧
      t2 = { tableASized with
        _data := tableASized._data ++ [[Cell.int 3, Cell.text "Fig", Cell.int 100]] } :=
  ⟨by decide, addRow_effect tableASized [Cell.int 3, Cell.text "Fig", Cell.int 100] (by decide)⟩

end Tabulator

/-! ## The product store -/

namespace ProductManager

theorem addProduct_spec (h : Heap) (pm : ProductManager) (p : Nat)
    (hp : p < h.products.length) :
    ∃ h2 pm2, addProduct h pm p = some (h2, pm2) ∧
      h2.products.length = h.products.length ∧ h2.orders = h.orders ∧
      pm2.m_Products = pm.m_Products ++ [p] ∧
      pm2.m_LastProductID = pm.m_LastProductID + 1 ∧
      idOf h2 p = some (pm.m_LastProductID + 1) ∧
      ∀ q, q ≠ p → h2.products[q]? = h.products[q]? := by
  refine ⟨{ h with products := h.products.set p ((h.products[p]).setID (pm.m_LastProductID + 1)) },
    { m_Products := pm.m_Products ++ [p], m_LastProductID := pm.m_LastProductID + 1 },
    ?_, by simp, rfl, rfl, rfl, ?_, ?_⟩
  · simp [addProduct, getLastProductID, List.getElem?_eq_getElem hp]
  · simp [idOf, hp, Product.setID]
  · intro q hq
    simp only
    rw [List.getElem?_set_ne (fun e => hq e.symm)]

theorem addProducts_spec (ps : List Nat) :
    ∀ (h : Heap) (pm : ProductManager), (∀ p ∈ ps, p < h.products.length) →
      ∃ h2 pm2, addProducts h pm ps = some (h2, pm2) ∧
        h2.products.length = h.products.length ∧ h2.orders = h.orders ∧
        pm2.m_Products = pm.m_Products ++ ps ∧
        pm2.m_LastProductID = pm.m_LastProductID + ps.length ∧
        (∀ q, q ∉ ps → h2.products[q]? = h.products[q]?) ∧
        (∀ (k p : Nat), ps[k]? = some p → (∀ j, k < j → ps[j]? ≠ some p) →
          idOf h2 p = some (pm.m_LastProductID + k + 1)) := by
  induction ps with
  | nil =>
    intro h pm _
    refine ⟨h, pm, rfl, rfl, rfl, by simp, by simp, fun _ _ => rfl, ?_⟩
    intro k p hk
    simp at hk
  | cons a rest ih =>
    intro h pm hvalid
    obtain ⟨h1, pm1, e1, hl1, ho1, hp1, hid1, hget1, hoth1⟩ :=
      addProduct_spec h pm a (hvalid a (List.mem_cons_self _ _))
    obtain ⟨h2, pm2, e2, hl2, ho2, hp2, hid2, hoth2, hk2⟩ := ih h1 pm1 (by
      intro p hp
      rw [hl1]
      exact hvalid p (List.mem_cons_of_mem _ hp))
    refine ⟨h2, pm2, ?_, by omega, by rw [ho2, ho1], ?_, ?_, ?_, ?_⟩
    · simp [addProducts, e1, e2]
    · rw [hp2, hp1]; simp
    · rw [hid2, hid1]; simp; omega
    · intro q hq
      have hqa : q ≠ a := fun e => hq (e ▸ List.mem_cons_self _ _)
      have hqr : q ∉ rest := fun e => hq (List.mem_cons_of_mem _ e)
      rw [hoth2 q hqr, hoth1 q hqa]
    · intro k p hk hlater
      cases k with
      | zero =>
        simp at hk
        subst hk
        have hnot : a ∉ rest := by
          intro hmem
          obtain ⟨j, hj⟩ := List.mem_iff_getElem?.mp hmem
          exact hlater (j + 1) (by omega) (by simpa using hj)
        have : idOf h2 a = idOf h1 a := by
          unfold idOf
          rw [hoth2 a hnot]
        rw [this, hget1]
        simp
      | succ k2 =>
        simp at hk
        have := hk2 k2 p hk (by
          intro j hj
          have := hlater (j + 1) (by omega)
          simpa using this)
        rw [this, hid1]
        congr 1
        push_cast
        omega

end ProductManager

theorem nodup_no_later {ps : List Nat} (hnd : ps.Nodup) (k p : Nat) (hk : ps[k]? = some p) :
    ∀ j, k < j → ps[j]? ≠ some p := by
  intro j hkj hj
  have hk1 : k < ps.length := by
    by_contra hc
    rw [List.getElem?_eq_none (by omega)] at hk
    cases hk
  have hj1 : j < ps.length := by
    by_contra hc
    rw [List.getElem?_eq_none (by omega)] at hj
    cases hj
  rw [List.getElem?_eq_getElem hk1] at hk
  rw [List.getElem?_eq_getElem hj1] at hj
  have heq : ps[k] = ps[j] := by
    rw [Option.some.inj hk, Option.some.inj hj]
  have := (List.Nodup.getElem_inj_iff hnd).mp heq
  omega

namespace ProductManager

theorem getLastProductID_false (pm : ProductManager) :
    pm.getLastProductID false = (pm.m_LastProductID, pm) := by
  cases pm
  simp [getLastProductID]

/-- C18 (monotonic ID allocation). From a freshly constructed `ProductManager`
and for every list of pointers to products on the free store, the calls of
`addProduct` return; call number `k + 1` assigns the ID `k + 1` to its product
and leaves `m_LastProductID` at `k + 1`, and `getLastProductID()` without the
increment then returns `k + 1` and leaves the manager as it is. When the
pointers are pairwise distinct, the product at position `k` of the store still
has the ID `k + 1` after all calls, so the IDs increase strictly in insertion
order. -/
theorem monotonic_ids (h : Heap) (ps : List Nat) (hvalid : ∀ p ∈ ps, p < h.products.length) :
    ∃ h2 pm2, addProducts h ProductManager.new ps = some (h2, pm2) ∧
      pm2.m_Products = ps ∧ pm2.m_LastProductID = ps.length ∧
      pm2.getLastProductID false = ((ps.length : Int), pm2) ∧
      (∀ (k p : Nat), ps[k]? = some p →
        ∃ hk pmk, addProducts h ProductManager.new (ps.take (k + 1)) = some (hk, pmk) ∧
          idOf hk p = some ((k : Int) + 1) ∧ pmk.m_LastProductID = (k : Int) + 1 ∧
          pmk.getLastProductID false = ((k : Int) + 1, pmk)) ∧
      (ps.Nodup → ∀ (k p : Nat), ps[k]? = some p → idOf h2 p = some ((k : Int) + 1)) ∧
      (ps.Nodup → ∀ (i j p q : Nat), i < j → ps[i]? = some p → ps[j]? = some q →
        ∃ a b : Int, idOf h2 p = some a ∧ idOf h2 q = some b ∧ 1 ≤ a ∧ a < b) := by
  obtain ⟨h2, pm2, e, _, _, hp, hid, _, hk⟩ := addProducts_spec ps h ProductManager.new hvalid
  have hfinal : ps.Nodup → ∀ (k p : Nat), ps[k]? = some p → idOf h2 p = some ((k : Int) + 1) := by
    intro hnd k p hkp
    rw [hk k p hkp (nodup_no_later hnd k p hkp)]
    simp [ProductManager.new]
  have hlast : pm2.m_LastProductID = ps.length := by
    rw [hid]; simp [ProductManager.new]
  refine ⟨h2, pm2, e, by rw [hp]; simp [ProductManager.new], hlast, ?_, ?_, hfinal, ?_⟩
  · rw [getLastProductID_false, hlast]
  · intro k p hkp
    have hklt : k < ps.length := by
      by_contra hc
      rw [List.getElem?_eq_none (by omega)] at hkp
      cases hkp
    obtain ⟨h3, pm3, e3, _, _, _, hid3, _, hk3⟩ :=
      addProducts_spec (ps.take (k + 1)) h ProductManager.new
        (fun p hp => hvalid p (List.mem_of_mem_take hp))
    have hlen : (ps.take (k + 1)).length = k + 1 := by
      rw [List.length_take]; omega
    have hlast3 : pm3.m_LastProductID = (k : Int) + 1 := by
      rw [hid3, hlen]; simp [ProductManager.new]
    refine ⟨h3, pm3, e3, ?_, hlast3, ?_⟩
    · rw [hk3 k p (by rw [List.getElem?_take_of_lt (by omega)]; exact hkp) (by
        intro j hj
        rw [List.getElem?_eq_none (by omega)]
        simp)]
      simp [ProductManager.new]
    · rw [getLastProductID_false, hlast3]
  · intro hnd i j p q hij hi hj
    refine ⟨(i : Int) + 1, (j : Int) + 1, hfinal hnd i p hi, hfinal hnd j q hj, by omega, by omega⟩

/-- Witness of C18: three products added in the order of the pointers 2, 0, 1. -/
theorem monotonic_ids_witness :
    (∀ p ∈ [2, 0, 1], p < heap3.products.length) ∧
    ∃ h2 pm2, addProducts heap3 ProductManager.new [2, 0, 1] = some (h2, pm2) ∧
      pm2.m_Products = [2, 0, 1] ∧ pm2.m_LastProductID = ([2, 0, 1] : List Nat).length ∧
      pm2.getLastProductID false = ((([2, 0, 1] : List Nat).length : Int), pm2) ∧
      (∀ (k p : Nat), ([2, 0, 1] : List Nat)[k]? = some p →
        ∃ hk pmk, addProducts heap3 ProductManager.new (([2, 0, 1] : List Nat).take (k + 1))
            = some (hk, pmk) ∧
          idOf hk p = some ((k : Int) + 1) ∧ pmk.m_LastProductID = (k : Int) + 1 ∧
          pmk.getLastProductID false = ((k : Int) + 1, pmk)) ∧
      (([2, 0, 1] : List Nat).Nodup → ∀ (k p : Nat), ([2, 0, 1] : List Nat)[k]? = some p →
        idOf h2 p = some ((k : Int) + 1)) ∧
      (([2, 0, 1] : List Nat).Nodup → ∀ (i j p q : Nat), i < j →
        ([2, 0, 1] : List Nat)[i]? = some p → ([2, 0, 1] : List Nat)[j]? = some q →
        ∃ a b : Int, idOf h2 p = some a ∧ idOf h2 q = some b ∧ 1 ≤ a ∧ a < b) :=
  ⟨by decide, monotonic_ids heap3 [2, 0, 1] (by decide)⟩

end ProductManager

/-! ## The order store -/

namespace Orders

theorem addOrder_spec (h : Heap) (os : Orders) (p : Nat) (hp : p < h.orders.length) :
    ∃ h2 os2, addOrder h os p = some (h2, os2) ∧
      h2.orders.length = h.orders.length ∧ h2.products = h.products ∧
      os2.m_Orders = os.m_Orders ++ [p] ∧
      os2.m_LastOrderID = os.m_LastOrderID + 1 ∧
      idOf h2 p = some (os.m_LastOrderID + 1) ∧
      ∀ q, q ≠ p → h2.orders[q]? = h.orders[q]? := by
  refine ⟨{ h with orders := h.orders.set p ((h.orders[p]).setOrderID (os.m_LastOrderID + 1)) },
    { m_Orders := os.m_Orders ++ [p], m_LastOrderID := os.m_LastOrderID + 1 },
    ?_, by simp, rfl, rfl, rfl, ?_, ?_⟩
  · simp [addOrder, getLastOrderID, List.getElem?_eq_getElem hp]
  · simp [idOf, hp, Order.setOrderID]
  · intro q hq
    simp only
    rw [List.getElem?_set_ne (fun e => hq e.symm)]

theorem addOrders_spec (ps : List Nat) :
    ∀ (h : Heap) (os : Orders), (∀ p ∈ ps, p < h.orders.length) →
      ∃ h2 os2, addOrders h os ps = some (h2, os2) ∧
        h2.orders.length = h.orders.length ∧ h2.products = h.products ∧
        os2.m_Orders = os.m_Orders ++ ps ∧
        os2.m_LastOrderID = os.m_LastOrderID + ps.length ∧
        (∀ q, q ∉ ps → h2.orders[q]? = h.orders[q]?) ∧
        (∀ (k p : Nat), ps[k]? = some p → (∀ j, k < j → ps[j]? ≠ some p) →
          idOf h2 p = some (os.m_LastOrderID + k + 1)) := by
  induction ps with
  | nil =>
    intro h os _
    refine ⟨h, os, rfl, rfl, rfl, by simp, by simp, fun _ _ => rfl, ?_⟩
    intro k p hk
    simp at hk
  | cons a rest ih =>
    intro h os hvalid
    obtain ⟨h1, os1, e1, hl1, ho1, hp1, hid1, hget1, hoth1⟩ :=
      addOrder_spec h os a (hvalid a (List.mem_cons_self _ _))
    obtain ⟨h2, os2, e2, hl2, ho2, hp2, hid2, hoth2, hk2⟩ := ih h1 os1 (by
      intro p hp
      rw [hl1]
      exact hvalid p (List.mem_cons_of_mem _ hp))
    refine ⟨h2, os2, ?_, by omega, by rw [ho2, ho1], ?_, ?_, ?_, ?_⟩
    · simp [addOrders, e1, e2]
    · rw [hp2, hp1]; simp
    · rw [hid2, hid1]; simp; omega
    · intro q hq
      have hqa : q ≠ a := fun e => hq (e ▸ List.mem_cons_self _ _)
      have hqr : q ∉ rest := fun e => hq (List.mem_cons_of_mem _ e)
      rw [hoth2 q hqr, hoth1 q hqa]
    · intro k p hk hlater
      cases k with
      | zero =>
        simp at hk
        subst hk
        have hnot : a ∉ rest := by
          intro hmem
          obtain ⟨j, hj⟩ := List.mem_iff_getElem?.mp hmem
          exact hlater (j + 1) (by omega) (by simpa using hj)
        have : idOf h2 a = idOf h1 a := by
          unfold idOf
          rw [hoth2 a hnot]
        rw [this, hget1]
        simp
      | succ k2 =>
        simp at hk
        have := hk2 k2 p hk (by
          intro j hj
          have := hlater (j + 1) (by omega)
          simpa using this)
        rw [this, hid1]
        congr 1
        push_cast
        omega

/-- C19 (positional removal). From a freshly constructed order store, after the
calls of `addOrder` on pairwise distinct orders of the free store, the order at
position `i` has the ID `i + 1`. For every position `k` of the store,
`removeOrder(k)` then returns and erases the pointer at position `k`: the order
it removes has the ID `k + 1`, no order that stays has that ID, the order with
the ID `k` stays when `k ≥ 1`, and the pointers that stay keep their order. -/
theorem positional_removal (h : Heap) (ps : List Nat)
    (hvalid : ∀ p ∈ ps, p < h.orders.length) (hnd : ps.Nodup) (k : Nat) (hk : k < ps.length) :
    ∃ (h2 : Heap) (os os2 : Orders) (removed : Nat),
      addOrders h Orders.new ps = some (h2, os) ∧ os.m_Orders = ps ∧
      (∀ (i p : Nat), ps[i]? = some p → idOf h2 p = some ((i : Int) + 1)) ∧
      os.getOrder (k : Int) = some removed ∧
      os.removeOrder (k : Int) = some os2 ∧
      os2.m_Orders = ps.eraseIdx k ∧ os2.m_LastOrderID = os.m_LastOrderID ∧
      idOf h2 removed = some ((k : Int) + 1) ∧ removed ∉ os2.m_Orders ∧
      (∀ q ∈ os2.m_Orders, idOf h2 q ≠ some ((k : Int) + 1)) ∧
      (1 ≤ k → ∃ q ∈ os2.m_Orders, idOf h2 q = some (k : Int)) ∧
      os2.m_Orders.Sublist os.m_Orders := by
  obtain ⟨h2, os, e, _, _, hp, _, _, hids⟩ := addOrders_spec ps h Orders.new hvalid
  have hps : os.m_Orders = ps := by rw [hp]; simp [Orders.new]
  have hfinal : ∀ (i p : Nat), ps[i]? = some p → idOf h2 p = some ((i : Int) + 1) := by
    intro i p hip
    rw [hids i p hip (nodup_no_later hnd i p hip)]
    simp [Orders.new]
  have hgetk : ps[k]? = some ps[k] := List.getElem?_eq_getElem hk
  have hnotmem : ∀ q ∈ ps.eraseIdx k, ∃ i, i ≠ k ∧ ps[i]? = some q := by
    intro q hq
    obtain ⟨i, hik, hi⟩ := List.mem_eraseIdx_iff_getElem?.mp hq
    exact ⟨i, hik, hi⟩
  refine ⟨h2, os, { os with m_Orders := ps.eraseIdx k }, ps[k], e, hps, hfinal, ?_, ?_, rfl, rfl,
    hfinal k _ hgetk, ?_, ?_, ?_, ?_⟩
  · unfold getOrder
    rw [if_pos (by omega), hps]
    simp
  · unfold removeOrder
    rw [if_pos (by rw [hps]; constructor <;> omega), hps]
    simp
  · intro hmem
    obtain ⟨i, hik, hi⟩ := hnotmem _ hmem
    rcases Nat.lt_or_gt_of_ne hik with hlt | hgt
    · exact nodup_no_later hnd i _ hi k hlt hgetk
    · exact nodup_no_later hnd k _ hgetk i hgt hi
  · intro q hq hid
    obtain ⟨i, hik, hi⟩ := hnotmem q hq
    rw [hfinal i q hi] at hid
    have := Option.some.inj hid
    omega
  · intro hk1
    have hlt : k - 1 < ps.length := by omega
    refine ⟨ps[k - 1], ?_, ?_⟩
    · apply List.mem_eraseIdx_iff_getElem?.mpr
      exact ⟨k - 1, by omega, List.getElem?_eq_getElem hlt⟩
    · rw [hfinal (k - 1) _ (List.getElem?_eq_getElem hlt)]
      congr 1
      omega
  · rw [hps]
    exact List.eraseIdx_sublist ps k

/-- Witness of C19: three orders added in the order of the pointers 2, 0, 1, and
`removeOrder(1)`. -/
theorem positional_removal_witness :
    (∀ p ∈ [2, 0, 1], p < heap3.orders.length) ∧ ([2, 0, 1] : List Nat).Nodup ∧
    1 < ([2, 0, 1] : List Nat).length ∧
    ∃ (h2 : Heap) (os os2 : Orders) (removed : Nat),
      addOrders heap3 Orders.new [2, 0, 1] = some (h2, os) ∧ os.m_Orders = [2, 0, 1] ∧
      (∀ (i p : Nat), ([2, 0, 1] : List Nat)[i]? = some p → idOf h2 p = some ((i : Int) + 1)) ∧
      os.getOrder ((1 : Nat) : Int) = some removed ∧
      os.removeOrder ((1 : Nat) : Int) = some os2 ∧
      os2.m_Orders = ([2, 0, 1] : List Nat).eraseIdx 1 ∧
      os2.m_LastOrderID = os.m_LastOrderID ∧
      idOf h2 removed = some (((1 : Nat) : Int) + 1) ∧ removed ∉ os2.m_Orders ∧
      (∀ q ∈ os2.m_Orders, idOf h2 q ≠ some (((1 : Nat) : Int) + 1)) ∧
      (1 ≤ 1 → ∃ q ∈ os2.m_Orders, idOf h2 q = some ((1 : Nat) : Int)) ∧
      os2.m_Orders.Sublist os.m_Orders :=
  ⟨by decide, by decide, by decide,
    positional_removal heap3 [2, 0, 1] (by decide) (by decide) 1 (by decide)⟩

end Orders

/-! ## The namespace `Text` -/

theorem stdFind_self (l : List Char) : stdFind l l = some 0 := by
  cases l with
  | nil => rfl
  | cons c rest =>
    unfold stdFind
    rw [if_pos]
    exact List.isPrefixOf_iff_prefix.mpr (List.prefix_refl _)

namespace Text

/-- C20. The overload of `StartsWithChar` with a string `what` returns true for
every `str` and every `what`, so its result does not depend on `what`: it is
true for `abc` and `x`, where `StartsWithString` is false, and when either
string is empty. -/
theorem startsWithChar_always (str what : String) :
    StartsWithChar str what = true ∧
    (∀ what2 : String, StartsWithChar str what2 = StartsWithChar str what) ∧
    StartsWithChar "abc" "x" = true ∧ StartsWithString "abc" "x" = false ∧
    StartsWithChar "" "x" = true ∧ StartsWithChar "abc" "" = true ∧
    StartsWithChar "" "" = true := by
  have h : ∀ a b : String, StartsWithChar a b = true := by
    intro a b
    unfold StartsWithChar
    rw [if_pos (stdFind_self a.data)]
  exact ⟨h str what, fun _ => rfl, h _ _, by decide, h _ _, h _ _, h _ _⟩

end Text

/-! ## Header cells and data lines against the rule line -/

namespace Tabulator

theorem widths_known (t : Tabulator) (cs : List Nat) (hlen : cs.length = t._num_columns)
    (hpt : ∀ j, j < t._num_columns → cs[j]? = some (t.specWidth j)) :
    ∀ (i w : Nat), cs[i]? = some w → i < t._num_columns ∧ w = t.specWidth i := by
  intro i w hw
  have hi : i < t._num_columns := by
    by_contra hc
    rw [List.getElem?_eq_none (by omega)] at hw
    cases hw
  rw [hpt i hi] at hw
  exact ⟨hi, (Option.some.inj hw).symm⟩

theorem header_fit (t : Tabulator) (cs : List Nat) (hlen : cs.length = t._num_columns)
    (hpt : ∀ j, j < t._num_columns → cs[j]? = some (t.specWidth j)) :
    ∀ (i w : Nat) (hd : String), cs[i]? = some w → t._headers[i]? = some hd →
      hd.length ≤ w := by
  intro i w hd hw hhd
  obtain ⟨_, hw2⟩ := widths_known t cs hlen hpt i w hw
  have := specWidth_header_le t i
  rw [hw2]
  simpa [List.getD, hhd] using this

theorem ruleLine_length_sized (t : Tabulator) (cs : List Nat)
    (hlen : cs.length = t._num_columns) :
    ({ t with _column_sizes := cs } : Tabulator).ruleLine.length
      = 1 + (cs.map fun w => w + (2 * t._cell_padding + 1)).sum := by
  rw [ruleLine, strFill_length, totalWidth_eq, sum_map_add_succ]
  dsimp only
  omega

theorem headerLine_length_sized (t : Tabulator) (cs : List Nat)
    (hlen : cs.length = t._num_columns) (hhead : t._headers.length = t._num_columns)
    (hfit : ∀ (i w : Nat) (hd : String), cs[i]? = some w → t._headers[i]? = some hd →
      hd.length ≤ w) :
    ({ t with _column_sizes := cs } : Tabulator).headerLine.length
      = 1 + (cs.map fun w => w + (2 * t._cell_padding + 1)).sum := by
  unfold headerLine
  rw [String.length_append, headerCells_length _ (by dsimp only; omega) hfit _ 0
    (by dsimp only; omega)]
  rfl

theorem cells_fit (fmtDouble : DoubleFmt) (t : Tabulator) (cs : List Nat)
    (hlen : cs.length = t._num_columns)
    (hpt : ∀ j, j < t._num_columns → cs[j]? = some (t.specWidth j))
    (hcells : ∀ row ∈ t._data, ∀ c ∈ row, c.textOrNat = true)
    (hnp : ColumnFormat.PERCENT ∉ t._column_format) :
    ∀ row ∈ t._data, ∀ (i : Nat) (val : Cell) (w : Nat), row[i]? = some val →
      cs[i]? = some w → ∀ st : OStream, (st.valText fmtDouble val).length ≤ w := by
  intro row hrow i val w hval hw st
  obtain ⟨_, hw2⟩ := widths_known t cs hlen hpt i w hw
  have hc := specWidth_cell_le t i row val hrow hval
  have hnot := not_isPercent_of_not_mem t i hnp
  rw [valText_length_of_textOrNat fmtDouble t val
    (hcells row hrow val (List.getElem?_mem hval)) st, hw2]
  simpa [cellWidth, hnot] using hc

end Tabulator

/-! ## Runs of the order store -/

namespace Orders

theorem addOrder_some (h h2 : Heap) (os os2 : Orders) (p : Nat)
    (e : addOrder h os p = some (h2, os2)) :
    os2.m_Orders = os.m_Orders ++ [p] ∧ os2.m_LastOrderID = os.m_LastOrderID + 1 := by
  unfold addOrder at e
  cases ho : h.orders[p]? with
  | none => simp [ho] at e
  | some o =>
    simp [ho, getLastOrderID] at e
    obtain ⟨_, e2⟩ := e
    rw [← e2]
    exact ⟨rfl, rfl⟩

theorem removeOrder_some (os os2 : Orders) (orderID : Int)
    (e : os.removeOrder orderID = some os2) :
    os2.m_Orders.length + 1 = os.m_Orders.length ∧ os2.m_LastOrderID = os.m_LastOrderID := by
  unfold removeOrder at e
  by_cases hc : 0 ≤ orderID ∧ orderID < os.m_Orders.length
  · rw [if_pos hc] at e
    cases e
    refine ⟨?_, rfl⟩
    simp only
    rw [List.length_eraseIdx, if_pos (by omega)]
    omega
  · rw [if_neg hc] at e
    cases e

theorem run_count (ops : List OrderOp) :
    ∀ (h h2 : Heap) (os os2 : Orders), Orders.run h os ops = some (h2, os2) →
      os2.m_LastOrderID + (os.m_Orders.length : Int)
        = os.m_LastOrderID + os2.m_Orders.length + OrderOp.removals ops := by
  induction ops with
  | nil =>
    intro h h2 os os2 e
    simp [Orders.run] at e
    rw [← e.2]
    simp [OrderOp.removals]
  | cons op rest ih =>
    intro h h2 os os2 e
    cases op with
    | addOrder order =>
      simp only [Orders.run] at e
      cases ha : addOrder h os order with
      | none => simp [ha] at e
      | some r =>
        simp only [ha, Option.some_bind] at e
        have h1 := addOrder_some h r.1 os r.2 order ha
        have h2 := ih r.1 h2 r.2 os2 e
        rw [h1.1, h1.2] at h2
        simp only [List.length_append, List.length_singleton, OrderOp.removals] at h2 ⊢
        push_cast at h2
        omega
    | removeOrder orderID =>
      simp only [Orders.run] at e
      cases hr : os.removeOrder orderID with
      | none => simp [hr] at e
      | some os1 =>
        simp only [hr, Option.some_bind] at e
        have h1 := removeOrder_some os os1 orderID hr
        have h2 := ih h h2 os1 os2 e
        rw [h1.2] at h2
        simp only [OrderOp.removals]
        push_cast
        omega

theorem getLastOrderID_false (os : Orders) :
    os.getLastOrderID false = (os.m_LastOrderID, os) := by
  cases os
  simp [getLastOrderID]

/-- C23 on the model. For every list of `addOrder` and `removeOrder` calls that
are all defined, started on the empty store, `getLastOrderID()` is `size()` plus
the number of `removeOrder` calls. After a run with a removal `size()` is
therefore a non-negative index below `getLastOrderID()` at which `getOrder`
reads outside the vector; the bound `getLastOrderID() ≤ size()` holds only for
runs without a removal. -/
theorem last_id_exceeds_size (h h2 : Heap) (ops : List OrderOp) (os2 : Orders)
    (hrun : Orders.run h Orders.new ops = some (h2, os2)) :
    (os2.getLastOrderID false).1 = os2.size + OrderOp.removals ops ∧
    (0 < OrderOp.removals ops →
      0 ≤ os2.size ∧ os2.size < (os2.getLastOrderID false).1 ∧ os2.getOrder os2.size = none) ∧
    (OrderOp.removals ops = 0 → (os2.getLastOrderID false).1 = os2.size) := by
  have hc := run_count ops h h2 Orders.new os2 hrun
  simp only [Orders.new, List.length_nil] at hc
  have hlast : (os2.getLastOrderID false).1 = os2.m_LastOrderID := by
    rw [getLastOrderID_false]
  unfold size
  rw [hlast]
  refine ⟨by push_cast at hc; omega, ?_, ?_⟩
  · intro hpos
    refine ⟨by omega, by push_cast at hc; omega, ?_⟩
    unfold getOrder
    rw [if_pos (by omega)]
    simp
  · intro hz
    rw [hz] at hc
    push_cast at hc
    omega

/-- Witness of C23: one `addOrder` and `removeOrder(0)` leave a store of size 0
whose last order ID is 1, and `getOrder(0)` reads outside the vector. -/
theorem last_id_exceeds_size_witness :
    Orders.run heap3 Orders.new [OrderOp.addOrder 0, OrderOp.removeOrder 0]
      = some ({ heap3 with orders := heap3.orders.set 0 (Order.new.setOrderID 1) },
              { m_Orders := [], m_LastOrderID := 1 }) ∧
    (({ m_Orders := [], m_LastOrderID := 1 } : Orders).getLastOrderID false).1 = 1 ∧
    ({ m_Orders := [], m_LastOrderID := 1 } : Orders).size = 0 ∧
    ({ m_Orders := [], m_LastOrderID := 1 } : Orders).getOrder 0 = none ∧
    ((({ m_Orders := [], m_LastOrderID := 1 } : Orders).getLastOrderID false).1
        = ({ m_Orders := [], m_LastOrderID := 1 } : Orders).size
          + OrderOp.removals [OrderOp.addOrder 0, OrderOp.removeOrder 0] ∧
      (0 < OrderOp.removals [OrderOp.addOrder 0, OrderOp.removeOrder 0] →
        0 ≤ ({ m_Orders := [], m_LastOrderID := 1 } : Orders).size ∧
        ({ m_Orders := [], m_LastOrderID := 1 } : Orders).size
          < (({ m_Orders := [], m_LastOrderID := 1 } : Orders).getLastOrderID false).1 ∧
        ({ m_Orders := [], m_LastOrderID := 1 } : Orders).getOrder
          ({ m_Orders := [], m_LastOrderID := 1 } : Orders).size = none) ∧
      (OrderOp.removals [OrderOp.addOrder 0, OrderOp.removeOrder 0] = 0 →
        (({ m_Orders := [], m_LastOrderID := 1 } : Orders).getLastOrderID false).1
          = ({ m_Orders := [], m_LastOrderID := 1 } : Orders).size)) :=
  ⟨by decide, by decide, by decide, by decide,
    last_id_exceeds_size heap3 { heap3 with orders := heap3.orders.set 0 (Order.new.setOrderID 1) }
      [OrderOp.addOrder 0, OrderOp.removeOrder 0] { m_Orders := [], m_LastOrderID := 1 }
      (by decide)⟩

end Orders

/-! ## The shopping cart -/

namespace ShoppingCart

/-- C24 (`addProductToCart`). For every product on the free store and every
quantity the call returns. It returns false exactly when the stock amount of the
product is less than the quantity, and then the cart and the free store are as
before. Otherwise it returns true, the cart is the former cart followed by one
pointer to a new order, whose product ID is the ID of the product, whose
quantity is the given quantity, whose order ID and shipping cost are 0 and
which is not checked out, and the orders that existed are as before. In both
cases the products, and so the stock amount, are as before. -/
theorem addProductToCart_effect (h : Heap) (cart : ShoppingCart) (product : Nat)
    (quantity : Int) (p : Product) (hp : h.products[product]? = some p) :
    ∃ (h2 : Heap) (cart2 : ShoppingCart) (ret : Bool),
      addProductToCart h cart product quantity = some (h2, cart2, ret) ∧
      (ret = false ↔ p.m_StockAmount < quantity) ∧
      (ret = false → cart2 = cart ∧ h2 = h) ∧
      (ret = true →
        cart2.m_Cart = cart.m_Cart ++ [h.orders.length] ∧
        h2.orders[h.orders.length]?
          = some { m_IsCheckedOut := false, m_ProductID := p.m_ID, m_OrderID := 0,
                   m_Quantity := quantity, m_ShippingCost := 0 } ∧
        h2.orders.length = h.orders.length + 1 ∧
        (∀ q, q < h.orders.length → h2.orders[q]? = h.orders[q]?)) ∧
      h2.products = h.products ∧
      (h2.products[product]?).map (fun x => x.m_StockAmount) = some p.m_StockAmount := by
  by_cases hs : p.m_StockAmount < quantity
  · refine ⟨h, cart, false, ?_, by simp [hs], fun _ => ⟨rfl, rfl⟩, by simp, rfl, by simp [hp]⟩
    simp [addProductToCart, hp, hs]
  · refine ⟨{ h with orders := h.orders ++
        [{ m_IsCheckedOut := false, m_ProductID := p.m_ID, m_OrderID := 0,
           m_Quantity := quantity, m_ShippingCost := 0 }] },
      { cart with m_Cart := cart.m_Cart ++ [h.orders.length] }, true, ?_, by simp [hs],
      by simp, fun _ => ⟨rfl, by simp, by simp, ?_⟩, rfl, by simp [hp]⟩
    · simp [addProductToCart, hp, hs, Heap.updateOrder, Order.new, Order.setProductID,
        Order.setQuantity]
    · intro q hq
      simp only
      rw [List.getElem?_append_left hq]

/-- Witness of C24: five apples, of which a hundred are in stock. -/
theorem addProductToCart_effect_witness :
    heapShop.products[0]?
      = some { m_ID := 1, m_Price := 10, m_StockAmount := 100,
               m_Name := "Apple", m_Description := "A fruit that is red and green" } ∧
    ∃ (h2 : Heap) (cart2 : ShoppingCart) (ret : Bool),
      addProductToCart heapShop { m_Cart := [1, 2] } 0 5 = some (h2, cart2, ret) ∧
      (ret = false ↔ (100 : Int) < 5) ∧
      (ret = false → cart2 = { m_Cart := [1, 2] } ∧ h2 = heapShop) ∧
      (ret = true →
        cart2.m_Cart = [1, 2] ++ [heapShop.orders.length] ∧
        h2.orders[heapShop.orders.length]?
          = some { m_IsCheckedOut := false, m_ProductID := 1, m_OrderID := 0,
                   m_Quantity := 5, m_ShippingCost := 0 } ∧
        h2.orders.length = heapShop.orders.length + 1 ∧
        (∀ q, q < heapShop.orders.length → h2.orders[q]? = heapShop.orders[q]?)) ∧
      h2.products = heapShop.products ∧
      (h2.products[0]?).map (fun x => x.m_StockAmount) = some 100 :=
  ⟨by decide, addProductToCart_effect heapShop { m_Cart := [1, 2] } 0 5
    { m_ID := 1, m_Price := 10, m_StockAmount := 100, m_Name := "Apple",
      m_Description := "A fruit that is red and green" } (by decide)⟩

end ShoppingCart

/-! ## Checkout -/

theorem Random.Gen_range (lib : RandomLib) (entropy : Nat) (rs : RandomState)
    (hlib : ∀ g, 10 ≤ (lib.distrib 10 100 g).1 ∧ (lib.distrib 10 100 g).1 ≤ 100) :
    10 ≤ (Random.Gen lib entropy 10 100 rs).1 ∧ (Random.Gen lib entropy 10 100 rs).1 ≤ 100 := by
  simp only [Random.Gen]
  exact hlib _

namespace ShoppingCart

theorem checkoutLoop_cons (lib : RandomLib) (entropy : Nat) (h : Heap) (rs : RandomState)
    (os : Orders) (a : Nat) (rest : List Nat) (o : Order) (ha : h.orders[a]? = some o) :
    checkoutLoop lib entropy h rs os (a :: rest) =
      checkoutLoop lib entropy
        { products := h.products,
          orders := h.orders.set a
                      { m_IsCheckedOut := true, m_ProductID := o.m_ProductID,
                        m_OrderID := os.m_LastOrderID + 1, m_Quantity := o.m_Quantity,
                        m_ShippingCost := (Random.Gen lib entropy 10 100 rs).1 } }
        (Random.Gen lib entropy 10 100 rs).2
        { m_Orders := os.m_Orders ++ [a], m_LastOrderID := os.m_LastOrderID + 1 } rest := by
  have hlt : a < h.orders.length := by
    rcases Nat.lt_or_ge a h.orders.length with hl | hl
    · exact hl
    · rw [List.getElem?_eq_none hl] at ha
      cases ha
  simp [checkoutLoop, Heap.updateOrder, Orders.addOrder, Orders.getLastOrderID, ha, hlt,
    Order.setCheckedOut, Order.setShippingCost, Order.setOrderID]

theorem checkoutLoop_spec (lib : RandomLib) (entropy : Nat)
    (hlib : ∀ g, 10 ≤ (lib.distrib 10 100 g).1 ∧ (lib.distrib 10 100 g).1 ≤ 100)
    (ps : List Nat) :
    ∀ (h : Heap) (rs : RandomState) (os : Orders),
      (∀ p ∈ ps, p < h.orders.length) → ps.Nodup →
      ∃ h2 rs2 os2, checkoutLoop lib entropy h rs os ps = some (h2, rs2, os2) ∧
        h2.orders.length = h.orders.length ∧ h2.products = h.products ∧
        os2.m_Orders = os.m_Orders ++ ps ∧
        os2.m_LastOrderID = os.m_LastOrderID + ps.length ∧
        (∀ q, q ∉ ps → h2.orders[q]? = h.orders[q]?) ∧
        (∀ (k p : Nat) (o : Order), ps[k]? = some p → h.orders[p]? = some o →
          ∃ c : Int, 10 ≤ c ∧ c ≤ 100 ∧
            h2.orders[p]? = some { m_IsCheckedOut := true, m_ProductID := o.m_ProductID,
                                   m_OrderID := os.m_LastOrderID + k + 1,
                                   m_Quantity := o.m_Quantity, m_ShippingCost := c }) := by
  induction ps with
  | nil =>
    intro h rs os _ _
    refine ⟨h, rs, os, rfl, rfl, rfl, by simp, by simp, fun _ _ => rfl, ?_⟩
    intro k p o hk
    simp at hk
  | cons a rest ih =>
    intro h rs os hvalid hnd
    have ha : a < h.orders.length := hvalid a (List.mem_cons_self _ _)
    have hao : h.orders[a]? = some h.orders[a] := List.getElem?_eq_getElem ha
    have hnotin : a ∉ rest := (List.nodup_cons.mp hnd).1
    obtain ⟨h2, rs2, os2, e2, hl2, hp2, hm2, hid2, hoth2, hk2⟩ :=
      ih { products := h.products,
           orders := h.orders.set a
                      { m_IsCheckedOut := true, m_ProductID := (h.orders[a]).m_ProductID,
                        m_OrderID := os.m_LastOrderID + 1,
                        m_Quantity := (h.orders[a]).m_Quantity,
                        m_ShippingCost := (Random.Gen lib entropy 10 100 rs).1 } }
        (Random.Gen lib entropy 10 100 rs).2
        { m_Orders := os.m_Orders ++ [a], m_LastOrderID := os.m_LastOrderID + 1 }
        (by
          intro p hp
          simp only [List.length_set]
          exact hvalid p (List.mem_cons_of_mem _ hp))
        (List.nodup_cons.mp hnd).2
    simp only [List.length_set] at hl2
    simp only at hp2 hm2 hid2
    refine ⟨h2, rs2, os2, ?_, hl2, hp2, ?_, ?_, ?_, ?_⟩
    · rw [checkoutLoop_cons lib entropy h rs os a rest _ hao]
      exact e2
    · rw [hm2]
      simp
    · rw [hid2]
      simp only [List.length_cons]
      push_cast
      omega
    · intro q hq
      have hqa : q ≠ a := fun e => hq (e ▸ List.mem_cons_self _ _)
      have hqr : q ∉ rest := fun e => hq (List.mem_cons_of_mem _ e)
      rw [hoth2 q hqr]
      simp only
      rw [List.getElem?_set_ne (fun e => hqa e.symm)]
    · intro k p o hk hpo
      cases k with
      | zero =>
        simp only [List.getElem?_cons_zero, Option.some.injEq] at hk
        subst hk
        rw [hao] at hpo
        simp only [Option.some.injEq] at hpo
        subst hpo
        refine ⟨(Random.Gen lib entropy 10 100 rs).1, (Random.Gen_range lib entropy rs hlib).1,
          (Random.Gen_range lib entropy rs hlib).2, ?_⟩
        rw [hoth2 a hnotin]
        simp [ha]
      | succ k =>
        simp only [List.getElem?_cons_succ] at hk
        have hpr : p ∈ rest := List.getElem?_mem hk
        have hpa : p ≠ a := fun e => hnotin (e ▸ hpr)
        obtain ⟨c, hc1, hc2, hc3⟩ := hk2 k p o hk (by
          simp only
          rw [List.getElem?_set_ne (fun e => hpa e.symm)]
          exact hpo)
        refine ⟨c, hc1, hc2, ?_⟩
        rw [hc3]
        simp only [Option.some.injEq, Order.mk.injEq, true_and, and_true]
        push_cast
        omega

end ShoppingCart

namespace ShoppingCart

theorem cartInv_new (h : Heap) : Inv h Orders.new { m_Cart := [] } := by
  simp [Inv, Orders.new]

theorem cartInv_addProductToCart (h h2 : Heap) (os : Orders) (cart cart2 : ShoppingCart)
    (product : Nat) (quantity : Int) (ret : Bool) (hinv : Inv h os cart)
    (hrun : addProductToCart h cart product quantity = some (h2, cart2, ret)) :
    Inv h2 os cart2 := by
  obtain ⟨hv, hnd, hdis, hos⟩ := hinv
  cases hp : h.products[product]? with
  | none => simp [addProductToCart, hp] at hrun
  | some p =>
    by_cases hs : p.m_StockAmount < quantity
    · simp [addProductToCart, hp, hs] at hrun
      obtain ⟨e1, e2, _⟩ := hrun
      subst e1 e2
      exact ⟨hv, hnd, hdis, hos⟩
    · simp [addProductToCart, hp, hs, Heap.updateOrder] at hrun
      obtain ⟨e1, e2, _⟩ := hrun
      subst e1 e2
      refine ⟨?_, ?_, ?_, ?_⟩
      · intro q hq
        simp only [List.mem_append, List.mem_singleton] at hq
        simp only [List.length_set, List.length_append, List.length_singleton]
        rcases hq with hq | hq
        · have := hv q hq
          omega
        · omega
      · simp only
        rw [List.nodup_append]
        refine ⟨hnd, List.nodup_singleton _, ?_⟩
        intro a ha hb
        simp only [List.mem_singleton] at hb
        have := hv a ha
        omega
      · intro q hq hq2
        simp only [List.mem_append, List.mem_singleton] at hq
        rcases hq with hq | hq
        · exact hdis q hq hq2
        · have := hos q hq2
          omega
      · intro q hq
        simp only [List.length_set, List.length_append, List.length_singleton]
        have := hos q hq
        omega

theorem cartInv_checkout (lib : RandomLib) (entropy : Nat) (h h2 : Heap) (rs rs2 : RandomState)
    (os os2 : Orders) (cart cart2 : ShoppingCart)
    (hlib : ∀ g, 10 ≤ (lib.distrib 10 100 g).1 ∧ (lib.distrib 10 100 g).1 ≤ 100)
    (hinv : Inv h os cart)
    (hrun : checkout lib entropy h rs os cart = some (h2, rs2, os2, cart2)) :
    Inv h2 os2 cart2 := by
  obtain ⟨hv, hnd, hdis, hos⟩ := hinv
  obtain ⟨h3, rs3, os3, e, hl, hp, hm, hid, hoth, hk⟩ :=
    checkoutLoop_spec lib entropy hlib cart.m_Cart h rs os hv hnd
  simp only [checkout, e, Option.map_some', Option.some.injEq, Prod.mk.injEq] at hrun
  obtain ⟨e1, _, e3, e4⟩ := hrun
  subst e1 e3 e4
  refine ⟨by simp [clearCart], by simp [clearCart], by simp [clearCart], ?_⟩
  intro q hq
  rw [hm] at hq
  rw [hl]
  rcases List.mem_append.mp hq with hq | hq
  · exact hos q hq
  · exact hv q hq

/-- C25 (`checkout`). Let the cart hold m pointers and the order store s
pointers with last order ID L, in a state of a run of the program (the pointers
refer to orders of the free store, the orders of the cart are distinct objects
and none of them is in the order store), and let every draw of the library
distribution on 10..100 lie between 10 and 100. Then `checkout` returns, the
cart is empty, the order store holds s + m pointers: the former s pointers in
their order, whose orders are as before, followed by the pointers of the cart in
cart order; the order of the k-th cart entry (from 0) is checked out, has a
shipping cost between 10 and 100, the order ID L + k + 1, and its former product
ID and quantity; the last order ID is L + m. -/
theorem checkout_effect (lib : RandomLib) (entropy : Nat) (h : Heap) (rs : RandomState)
    (os : Orders) (cart : ShoppingCart)
    (hlib : ∀ g, 10 ≤ (lib.distrib 10 100 g).1 ∧ (lib.distrib 10 100 g).1 ≤ 100)
    (hinv : Inv h os cart) :
    ∃ (h2 : Heap) (rs2 : RandomState) (os2 : Orders) (cart2 : ShoppingCart),
      checkout lib entropy h rs os cart = some (h2, rs2, os2, cart2) ∧
      cart2.m_Cart = [] ∧
      os2.size = os.size + cart.m_Cart.length ∧
      os2.m_Orders = os.m_Orders ++ cart.m_Cart ∧
      (∀ p ∈ os.m_Orders, h2.orders[p]? = h.orders[p]?) ∧
      (∀ (k p : Nat), cart.m_Cart[k]? = some p →
        os2.getOrder (os.size + k) = some p ∧
        ∃ (o : Order) (c : Int), h.orders[p]? = some o ∧ 10 ≤ c ∧ c ≤ 100 ∧
          h2.orders[p]? = some { m_IsCheckedOut := true, m_ProductID := o.m_ProductID,
                                 m_OrderID := (os.getLastOrderID false).1 + k + 1,
                                 m_Quantity := o.m_Quantity, m_ShippingCost := c }) ∧
      (os2.getLastOrderID false).1 = (os.getLastOrderID false).1 + cart.m_Cart.length ∧
      h2.products = h.products := by
  obtain ⟨hv, hnd, hdis, hos⟩ := hinv
  obtain ⟨h2, rs2, os2, e, hl, hp, hm, hid, hoth, hk⟩ :=
    checkoutLoop_spec lib entropy hlib cart.m_Cart h rs os hv hnd
  refine ⟨h2, rs2, os2, cart.clearCart, ?_, rfl, ?_, hm, ?_, ?_, ?_, hp⟩
  · simp [checkout, e]
  · simp [Orders.size, hm]
  · intro p hpo
    exact hoth p (fun hc => hdis p hc hpo)
  · intro k p hkp
    have hpc : p ∈ cart.m_Cart := List.getElem?_mem hkp
    have hpl : p < h.orders.length := hv p hpc
    refine ⟨?_, h.orders[p], ?_⟩
    · have hnn : (0 : Int) ≤ os.size + (k : Int) := by
        simp only [Orders.size]
        omega
      have htn : (os.size + (k : Int)).toNat = os.m_Orders.length + k := by
        simp only [Orders.size]
        omega
      simp only [Orders.getOrder, hnn, if_true, htn, hm]
      rw [List.getElem?_append_right (Nat.le_add_right _ _)]
      simp only [Nat.add_sub_cancel_left]
      exact hkp
    · obtain ⟨c, hc1, hc2, hc3⟩ := hk k p h.orders[p] hkp (List.getElem?_eq_getElem hpl)
      exact ⟨c, List.getElem?_eq_getElem hpl, hc1, hc2, by
        simp only [Orders.getLastOrderID, Bool.false_eq_true, if_false, add_zero]
        exact hc3⟩
  · simp only [Orders.getLastOrderID, Bool.false_eq_true, if_false, add_zero]
    exact hid

/-- Witness of C25: a cart with two orders, checked out into a store that holds
one order with the last order ID 1. -/
theorem checkout_effect_witness :
    (∀ g, 10 ≤ (sampleRandom.distrib 10 100 g).1 ∧ (sampleRandom.distrib 10 100 g).1 ≤ 100) ∧
    Inv heapShop { m_Orders := [0], m_LastOrderID := 1 } { m_Cart := [1, 2] } ∧
    ∃ (h2 : Heap) (rs2 : RandomState) (os2 : Orders) (cart2 : ShoppingCart),
      checkout sampleRandom 7 heapShop { g_IsDeviceInitialized := false, g_Generator := 0 }
        { m_Orders := [0], m_LastOrderID := 1 } { m_Cart := [1, 2] }
        = some (h2, rs2, os2, cart2) ∧
      cart2.m_Cart = [] ∧
      os2.size = Orders.size { m_Orders := [0], m_LastOrderID := 1 }
        + (ShoppingCart.mk [1, 2]).m_Cart.length ∧
      os2.m_Orders = (Orders.mk [0] 1).m_Orders ++ (ShoppingCart.mk [1, 2]).m_Cart ∧
      (∀ p ∈ (Orders.mk [0] 1).m_Orders, h2.orders[p]? = heapShop.orders[p]?) ∧
      (∀ (k p : Nat), (ShoppingCart.mk [1, 2]).m_Cart[k]? = some p →
        os2.getOrder (Orders.size (Orders.mk [0] 1) + k) = some p ∧
        ∃ (o : Order) (c : Int), heapShop.orders[p]? = some o ∧ 10 ≤ c ∧ c ≤ 100 ∧
          h2.orders[p]? = some { m_IsCheckedOut := true, m_ProductID := o.m_ProductID,
                                 m_OrderID := (Orders.getLastOrderID (Orders.mk [0] 1) false).1
                                   + k + 1,
                                 m_Quantity := o.m_Quantity, m_ShippingCost := c }) ∧
      (os2.getLastOrderID false).1 = (Orders.getLastOrderID (Orders.mk [0] 1) false).1
        + (ShoppingCart.mk [1, 2]).m_Cart.length ∧
      h2.products = heapShop.products :=
  ⟨by
    intro g
    simp only [sampleRandom]
    omega,
   by decide,
   checkout_effect sampleRandom 7 heapShop { g_IsDeviceInitialized := false, g_Generator := 0 }
    { m_Orders := [0], m_LastOrderID := 1 } { m_Cart := [1, 2] }
    (by
      intro g
      simp only [sampleRandom]
      omega)
    (by decide)⟩

end ShoppingCart

/-! ## The lines of the output -/

theorem noNewline_append (a b : String) :
    noNewline (a ++ b) ↔ noNewline a ∧ noNewline b := by
  simp [noNewline, String.data_append, not_or]

theorem noNewline_strFill (n : Nat) (c : Char) (hc : c ≠ '\n') : noNewline (strFill n c) := by
  intro hmem
  exact hc (strFill_all n c _ hmem).symm

theorem digitChar_ne_newline (d : Nat) (h : d < 10) : Nat.digitChar d ≠ '\n' := by
  interval_cases d <;> decide

theorem toDigitsCore_noNewline (fuel : Nat) :
    ∀ n ds, (∀ c ∈ ds, c ≠ '\n') → ∀ c ∈ Nat.toDigitsCore 10 fuel n ds, c ≠ '\n' := by
  induction fuel with
  | zero =>
    intro n ds hds c hc
    simp [Nat.toDigitsCore] at hc
    exact hds c hc
  | succ k ih =>
    intro n ds hds c hc
    unfold Nat.toDigitsCore at hc
    have hcons : ∀ c ∈ Nat.digitChar (n % 10) :: ds, c ≠ '\n' := by
      intro c hc
      rcases List.mem_cons.mp hc with h | h
      · rw [h]; exact digitChar_ne_newline _ (Nat.mod_lt _ (by decide))
      · exact hds c h
    by_cases h : n / 10 = 0
    · simp only [h, if_true] at hc
      exact hcons c hc
    · simp only [h, if_false] at hc
      exact ih _ _ hcons c hc

theorem noNewline_toString_nat (n : Nat) : noNewline (toString n) := by
  show noNewline (Nat.repr n)
  unfold Nat.repr Nat.toDigits noNewline
  rw [List.asString]
  intro hmem
  exact toDigitsCore_noNewline (n + 1) n [] (by simp) _ hmem rfl

theorem noNewline_toString_int (v : Int) : noNewline (toString v) := by
  cases v with
  | ofNat n => exact noNewline_toString_nat n
  | negSucc n =>
    show noNewline ("-" ++ toString (n + 1))
    rw [noNewline_append]
    exact ⟨by decide, noNewline_toString_nat _⟩

theorem newlines_append (a b : String) : newlines (a ++ b) = newlines a + newlines b := by
  simp [newlines, String.data_append]

theorem newlines_of_noNewline (s : String) (h : noNewline s) : newlines s = 0 := by
  unfold newlines
  exact List.count_eq_zero.mpr h

theorem newlines_joinLines (ls : List String) (h : ∀ l ∈ ls, noNewline l) :
    newlines (joinLines ls) = ls.length := by
  induction ls with
  | nil => rfl
  | cons l rest ih =>
    have h1 : newlines l = 0 := newlines_of_noNewline l (h l (List.mem_cons_self _ _))
    have h2 : newlines "\n" = 1 := by decide
    simp only [joinLines, newlines_append, h1, h2, List.length_cons,
      ih (fun x hx => h x (List.mem_cons_of_mem _ hx))]
    omega

namespace Tabulator

theorem hasText_valText (fmtDouble : DoubleFmt) (st : OStream) (val : Cell) :
    val.hasText fmtDouble (st.valText fmtDouble val) := by
  cases val with
  | int v => rfl
  | text s => rfl
  | real x => exact ⟨st.floatfield, st.precision, rfl⟩

theorem cellText_eq_dataCell (fmtDouble : DoubleFmt) (t : Tabulator) (I : Nat) (val : Cell)
    (w : Nat) (stream : OStream) :
    t.cellText fmtDouble I val w stream
      = dataCell t._cell_padding w val ((t.cellFormat I stream).valText fmtDouble val) := by
  unfold cellText dataCell
  rw [cellField_eq]

theorem rowLoop_cells (fmtDouble : DoubleFmt) (t : Tabulator) (row : List Cell)
    (hrow : row.length = t._column_sizes.length) :
    ∀ count lo (stream : OStream), stream.width = 0 → lo + count = t._column_sizes.length →
      ∃ txts : List String, txts.length = count ∧
        (∀ (j : Nat) (val : Cell) (txt : String), (row.drop lo)[j]? = some val →
          txts[j]? = some txt → val.hasText fmtDouble txt) ∧
        (iterFrom (t.rowStep fmtDouble row) count lo stream).out
          = stream.out
            ++ dataCells t._cell_padding (row.drop lo) (t._column_sizes.drop lo) txts := by
  intro count
  induction count with
  | zero =>
    intro lo stream _ hlo
    have h1 : row.drop lo = [] := List.drop_eq_nil_of_le (by omega)
    refine ⟨[], rfl, ?_, ?_⟩
    · intro j val txt hj
      rw [h1] at hj
      simp at hj
    · rw [h1]
      simp [iterFrom, dataCells]
  | succ k ih =>
    intro lo stream hwidth hlo
    have h1 : lo < t._column_sizes.length := by omega
    have h2 : lo < row.length := by omega
    have hstep : (t.rowStep fmtDouble row lo stream).out
        = stream.out ++ t.cellText fmtDouble lo (row.getD lo (Cell.int 0))
            (t._column_sizes.getD lo 0) stream := cellDone_out _ _ _ _ _ _ hwidth
    have hg : t._column_sizes.getD lo 0 = t._column_sizes[lo] := by
      simp [List.getD, List.getElem?_eq_getElem h1]
    have hr : row.getD lo (Cell.int 0) = row[lo] := by
      simp [List.getD, List.getElem?_eq_getElem h2]
    obtain ⟨txts, hlen, htxt, hout⟩ :=
      ih (lo + 1) (t.rowStep fmtDouble row lo stream) (cellDone_width _ _ _ _ _ _) (by omega)
    refine ⟨(t.cellFormat lo stream).valText fmtDouble row[lo] :: txts, by simp [hlen], ?_, ?_⟩
    · intro j val txt hj htj
      rw [List.drop_eq_getElem_cons h2] at hj
      cases j with
      | zero =>
        simp only [List.getElem?_cons_zero, Option.some.injEq] at hj htj
        subst hj htj
        exact hasText_valText fmtDouble _ _
      | succ j =>
        simp only [List.getElem?_cons_succ] at hj htj
        exact htxt j val txt hj htj
    · simp only [iterFrom]
      rw [hout, hstep, cellText_eq_dataCell, hg, hr, List.drop_eq_getElem_cons h1,
        List.drop_eq_getElem_cons h2]
      simp only [dataCells, String.append_assoc]

theorem rowLine_cells (fmtDouble : DoubleFmt) (t : Tabulator) (row : List Cell)
    (stream : OStream) (hwidth : stream.width = 0)
    (hnum : t._column_sizes.length = t.tupleSize)
    (hrow : row.length = t._column_sizes.length) :
    ∃ txts : List String, txts.length = row.length ∧
      (∀ (i : Nat) (val : Cell) (txt : String), row[i]? = some val → txts[i]? = some txt →
        val.hasText fmtDouble txt) ∧
      t.rowLine fmtDouble row stream
        = "|" ++ dataCells t._cell_padding row t._column_sizes txts := by
  obtain ⟨txts, hlen, htxt, hout⟩ := rowLoop_cells fmtDouble t row hrow t.tupleSize 0
    ((stream.withOut "").write "|") rfl (by omega)
  refine ⟨txts, by omega, ?_, ?_⟩
  · intro i val txt hi hti
    exact htxt i val txt (by simpa using hi) hti
  · unfold rowLine rowDone
    rw [hout, OStream.write_out _ _ (by simpa [OStream.withOut] using hwidth)]
    simp [OStream.withOut]

end Tabulator

theorem noNewline_dataCell (pad w : Nat) (val : Cell) (txt : String) (h : noNewline txt) :
    noNewline (dataCell pad w val txt) := by
  have hb : ∀ n, noNewline (strFill n ' ') := fun n => noNewline_strFill n ' ' (by decide)
  have hbar : noNewline "|" := by decide
  unfold dataCell
  by_cases hs : val.type = CType.string
  · simp only [hs, if_true, noNewline_append]
    exact ⟨⟨⟨hb _, h, hb _⟩, hb _⟩, hbar⟩
  · simp only [hs, if_false, noNewline_append]
    exact ⟨⟨⟨hb _, hb _, h⟩, hb _⟩, hbar⟩

theorem noNewline_dataCells (pad : Nat) :
    ∀ (row : List Cell) (ws : List Nat) (txts : List String),
      (∀ txt ∈ txts, noNewline txt) → noNewline (dataCells pad row ws txts) := by
  intro row
  induction row with
  | nil => intro ws txts _; simp only [dataCells]; decide
  | cons val row ih =>
    intro ws txts h
    cases ws with
    | nil => simp only [dataCells]; decide
    | cons w ws =>
      cases txts with
      | nil => simp only [dataCells]; decide
      | cons txt txts =>
        simp only [dataCells, noNewline_append]
        exact ⟨noNewline_dataCell pad w val txt (h txt (List.mem_cons_self _ _)),
          ih ws txts (fun x hx => h x (List.mem_cons_of_mem _ hx))⟩

theorem noNewline_of_hasText (fmtDouble : DoubleFmt)
    (hfmt : ∀ ff p x, noNewline (fmtDouble ff p x)) (val : Cell) (txt : String)
    (hval : ∀ s, val = Cell.text s → noNewline s) (h : val.hasText fmtDouble txt) :
    noNewline txt := by
  cases val with
  | int v =>
    simp only [Cell.hasText] at h
    rw [h]
    exact noNewline_toString_int v
  | text s =>
    simp only [Cell.hasText] at h
    rw [h]
    exact hval s rfl
  | real x =>
    obtain ⟨ff, p, h⟩ := h
    rw [h]
    exact hfmt ff p x

namespace Tabulator

theorem noNewline_ruleLine (t : Tabulator) : noNewline t.ruleLine :=
  noNewline_strFill _ '-' (by decide)

theorem noNewline_headerCell (t : Tabulator) (w : Nat) (hd : String) (h : noNewline hd) :
    noNewline (t.headerCell w hd) := by
  have hb : ∀ n, noNewline (strFill n ' ') := fun n => noNewline_strFill n ' ' (by decide)
  have hbar : noNewline "|" := by decide
  unfold headerCell
  simp only [noNewline_append]
  exact ⟨⟨⟨hb _, ⟨hb _, h⟩, hb _⟩, hb _⟩, hbar⟩

theorem noNewline_headerLine (t : Tabulator) (hhead : ∀ hd ∈ t._headers, noNewline hd) :
    noNewline t.headerLine := by
  have hcells : ∀ count lo, noNewline (t.headerCells count lo) := by
    intro count
    induction count with
    | zero => intro lo; simp only [headerCells]; decide
    | succ k ih =>
      intro lo
      simp only [headerCells, noNewline_append]
      refine ⟨noNewline_headerCell t _ _ ?_, ih (lo + 1)⟩
      by_cases hlo : lo < t._headers.length
      · have : t._headers.getD lo "" = t._headers[lo] := by
          simp [List.getD, List.getElem?_eq_getElem hlo]
        rw [this]
        exact hhead _ (List.getElem_mem _)
      · have : t._headers.getD lo "" = "" := by
          simp [List.getD, List.getElem?_eq_none (Nat.le_of_not_lt hlo)]
        rw [this]
        decide
  unfold headerLine
  rw [noNewline_append]
  exact ⟨by decide, hcells _ _⟩

end Tabulator

namespace Tabulator

end Tabulator
